import Mathlib

set_option maxRecDepth 10000

/-- Little-endian interpretation of the first four bytes of a list, as in
`byteorder::LittleEndian::read_u32`. Missing bytes read as zero. -/
def readU32LE (bs : List Nat) : Nat :=
  bs.getD 0 0 + bs.getD 1 0 * 2 ^ 8 + bs.getD 2 0 * 2 ^ 16 + bs.getD 3 0 * 2 ^ 24

/-- Little-endian byte decomposition of a 32-bit word, as in
`byteorder::LittleEndian::write_u32`. -/
def writeU32LE (x : Nat) : List Nat :=
  [x % 2 ^ 8, x / 2 ^ 8 % 2 ^ 8, x / 2 ^ 16 % 2 ^ 8, x / 2 ^ 24 % 2 ^ 8]

/-- Byte reversal `u32::swap_bytes` on a 32-bit word held as a `Nat` (the value
is first truncated to 32 bits, as the `u32` type does in the source). -/
def swapBytes32 (x : Nat) : Nat :=
  x % 2 ^ 8 * 2 ^ 24 + x / 2 ^ 8 % 2 ^ 8 * 2 ^ 16 + x / 2 ^ 16 % 2 ^ 8 * 2 ^ 8 + x / 2 ^ 24 % 2 ^ 8

namespace Key1

/-- First half (520 words) of the `KEY_DATA` table. -/
def KEY_DATA_A : List Nat := [
0x5F20D599, 0xB9F54457, 0xD9A4196E, 0x945A6A9E, 0xEBF1AED8, 0x3AE27541, 0x32D08293, 0xD531EE33,
0x9A6157CC, 0x1BA20637, 0xF5723979, 0xBEF6AE55, 0xFB691B5F, 0xE9F19DE5, 0xA1D92CCE, 0xE605325E,
0xCFFED3FE, 0x0D0462D4, 0xB7ECF58B, 0xBB79602B, 0x0D319512, 0x2BDA3F6E, 0xF1F08488, 0x257E123D,
0xBBF12245, 0x061A0624, 0x28DFAD11, 0x3481648B, 0x2933EB2B, 0xBDF2AA99, 0x9D95149C, 0x8CF5F79F,
0x29A19772, 0xCF5FD19D, 0x1A074D66, 0x4B4AD3DE, 0xA3A7C985, 0x3A059517, 0xBF0A493D, 0xA28B890A,
0xDD49824A, 0x0BF19027, 0x6A1CEBE9, 0x05457683, 0x617081BA, 0xDE4B3F17, 0x39ABCFAE, 0x563AF257,
0x8AAD1148, 0x3F45E140, 0x54029BFA, 0xFB93A6CA, 0x6FFE4DEF, 0x9C87D8A3, 0x48D5BA08, 0xFD2D8D6A,
0x74F8156E, 0x8B52BEBD, 0x9E8A2218, 0x073774FB, 0x4A6C361B, 0x6242BA19, 0x109179B9, 0x9665677B,
0xE82302FE, 0x778C99EE, 0x64865C3E, 0x86786D4D, 0xE2654FA5, 0x5ADFB21E, 0x087ED00A, 0xAC71B014,
0x1C83DBBD, 0x62A1D7B9, 0x7C63C6CD, 0xE6C36952, 0x12CE75BF, 0x04215D44, 0x3CD3FBFA, 0xD4631138,
0x49418595, 0x08F20946, 0x1FDC1143, 0x6D15C076, 0x70633C1F, 0x6C8087EA, 0x8B63BDC3, 0x372137C2,
0x2309EEDC, 0x4D6A372E, 0x50F79073, 0x921CAC30, 0x91231004, 0xAA07D24F, 0x9A4F3E68, 0x6A6064C9,
0xF32114C8, 0x124122D6, 0xE6CF2444, 0x0DDD568A, 0x85E14D53, 0x5A528C1E, 0xC284199C, 0x6FF15703,
0x58BE00E3, 0xD5ED4CF6, 0x1F9C6421, 0x3C0355BE, 0xAAFFDC4A, 0x5DE0DAC9, 0xDEE6BF5E, 0xF8B1D8F5,
0xB9B336FF, 0xDB956762, 0xED375F31, 0x9967704C, 0x3118B590, 0x99993D6C, 0xD3DA42E4, 0xA0134225,
0x6C70D7AE, 0xC7CF55B1, 0x43D546D7, 0x443D1761, 0x8533E928, 0x93A2D0D5, 0x1F1225AA, 0x460BC5FB,
0x567697F5, 0x87BEA645, 0xE86B94B1, 0x9933FEB1, 0x6C3E1FAE, 0x091D7139, 0xE4379000, 0x74753E10,
0x3B838CFF, 0xF9B0F1B0, 0x42470501, 0xACD6F195, 0x9EE6387E, 0x3F267495, 0x185068B4, 0xB43043D0,
0x68E34B4C, 0xB64DE5BF, 0xA00A8B95, 0x77322574, 0x2CF7A1CF, 0x5A1371D8, 0x51C9EAAB, 0xEFEE0DE8,
0x197E93E9, 0x38431EA7, 0xA12C1681, 0xCC73E348, 0xD36C2129, 0xD9A0CE5D, 0xA0437161, 0x64B51315,
0x192ACF92, 0xA5B7ADDC, 0xF865869F, 0xFBE79F1A, 0x13B8FDF7, 0x6FDB276C, 0xF71C35DF, 0x9B5B2C8D,
0x6438AB12, 0x31DECC06, 0x11754EE8, 0xEAFAE364, 0xC25434EB, 0xEB343FAD, 0x267D2C93, 0xF3569D36,
0xB3F6E15A, 0x9E4A6398, 0x9AE48332, 0x907D6084, 0xEE0E132E, 0xA2364B93, 0x3816EC85, 0x020688E8,
0x3AA0F0BF, 0x9A6AD7ED, 0xCF57E173, 0xDCB844F8, 0xD159232E, 0x715295DF, 0x4BA06199, 0x786E7FD5,
0x30C5A9BA, 0x328640D3, 0x9C0C329D, 0x2F02B737, 0xA99854BA, 0xC90413C4, 0xE7C8BE8D, 0x2E50975D,
0x5922D693, 0x22BC270C, 0x20A7E092, 0x7F6F930F, 0xB5D39F4C, 0x740B2AA6, 0x107D4967, 0xC5D1CB26,
0x8CE77186, 0x5BE99CA0, 0x01F61AB2, 0x5E9E8CEE, 0xDB1AF283, 0x84EAE5E6, 0x7CD27659, 0x49A58DF6,
0x16C24836, 0xA383BB52, 0x0C07B974, 0x2861FF3B, 0xE4E961E1, 0xAA156EEF, 0x5DE8BA4E, 0x32BB9605,
0x72FBB056, 0xC80E0F52, 0x76652542, 0xDEF2AF89, 0x01F02710, 0x97A7744B, 0x5426D507, 0x821F0954,
0x307D860A, 0x26B30E39, 0xBB570B9B, 0xAF310636, 0xD9FC79FD, 0x0C2B1030, 0xD79BE1B3, 0xEF5FDC7B,
0x4513F8D2, 0xBD75474D, 0x7E3C9646, 0xB53EF375, 0x3B9AC567, 0x6B295BB0, 0xC85B80DE, 0x31B10515,
0xDD49CEB6, 0xAEB584AD, 0x3167DC60, 0x4EFE3034, 0xA62F80BD, 0x213963BF, 0x7F35D986, 0x05226816,
0x2690E954, 0x516C078C, 0xD75531A4, 0x3EA80709, 0xC166532E, 0xC47BF2F8, 0xF1CF58F2, 0xE7A2C587,
0x87308F27, 0x6264A058, 0x88B91823, 0xC4CEFA7C, 0x17ADAE98, 0xF35B4ACC, 0x56D548E9, 0xC8F20DD3,
0xDB8C7392, 0xAC562FD7, 0x6992F981, 0xF632C64D, 0x218DC0E6, 0x618076E2, 0x6CDCBC11, 0x6919AF93,
0xB9BFD09B, 0x67029F31, 0x83EE51A3, 0x0C7B2206, 0x404249AB, 0x7D01D5B8, 0x55F75ECE, 0x99C53953,
0x9F87D846, 0xB464F7BA, 0xA1FA9AE3, 0x1068906D, 0x548ACA30, 0xC3609FA7, 0x0D6BF519, 0xE698517A,
0xB4514398, 0x4FE935D6, 0x7B0FDFC3, 0xBD5C2FD6, 0x1961153A, 0xAACB4BF1, 0xC9646DDC, 0x561EC6D3,
0x504C38EF, 0xCC758671, 0xE94E0D0D, 0x5D06F628, 0xD3AA1B70, 0x39A8CF45, 0x2EA695AC, 0xD422E4B4,
0x5F37A874, 0xCC047A48, 0xD8404CA5, 0x0828B428, 0x52721C0D, 0x477DF041, 0x4E533A19, 0x6B628458,
0x818AB593, 0xDC0D4E21, 0xC6A23FB4, 0x402BC9FC, 0xE90438DA, 0x6B865A5E, 0x8525220C, 0x7C8D1168,
0x55951D92, 0xBB8EAB4D, 0xB7E6A6DA, 0x5A32B651, 0x05DD4105, 0x50560A2A, 0xCC471791, 0xB57EE6C9,
0x73DB4A61, 0x33C85167, 0x746EDAF5, 0x37C3542E, 0x08AF6D0D, 0x5F8A15E8, 0xCD2159E2, 0x060CDEA8,
0x5F6B775A, 0x3E6518DB, 0x78DE50C8, 0xB382B8E0, 0x32724E5D, 0x34C14F07, 0xB796BA23, 0x28A44E67,
0xEB62341E, 0xE9706A2D, 0x70C4422F, 0x9C315A4E, 0x28475BF9, 0x6F71DAAA, 0x78B31F38, 0x1C6B92C4,
0x9A35F69E, 0xBF0E4DB7, 0x412918CC, 0x5D354803, 0xC62BD055, 0x605CAF29, 0x5E8E6974, 0xBDD47C9B,
0x7D64447B, 0x695D923F, 0x4B001FB6, 0xCF3583D4, 0x174E647E, 0x2ED58DAE, 0x4E12289A, 0x08492B2E,
0x46C6AE5C, 0x6141AE85, 0xD2826F1E, 0x1F163751, 0xA459F60B, 0xAF5ACA9A, 0x8B33D40D, 0x84F16320,
0xCFCB5C80, 0xD3B9B408, 0x62BD0516, 0x569B3183, 0xBA9F9851, 0xB2AA5BB2, 0xB52C6B22, 0x63FA48D4,
0xFA585F2B, 0x0964FA61, 0xB8E038BB, 0xA860929D, 0x0E6F670D, 0x010DF537, 0xD477C29F, 0x73F1ECFE,
0x7DE03930, 0xE49861F5, 0x0455282C, 0x2FDB5556, 0x58E5EC6B, 0x8064B606, 0x4E1A2A6A, 0xC4D80F5B,
0x19522E0A, 0x30F562D9, 0x7B8CBE48, 0xA29B384F, 0xD3C9AFC3, 0x4162C1C7, 0x2161B986, 0x4F996F57,
0x7BCEBAC1, 0x5E4D3BB5, 0x57448B8A, 0x705F135F, 0x47295B6D, 0xECE238DC, 0x12655504, 0x4317E82A,
0x2ADD8EE1, 0xF794E2B3, 0xE65C6E09, 0x6DF88AEB, 0x48544989, 0xBFAD2FF5, 0xCA4B94EA, 0x828739FC,
0xF2018A5F, 0x71E6F275, 0xDE42D8D6, 0x281D2DF1, 0xA37E88A6, 0x301D47A0, 0xDF71A3D9, 0x01CB1C49,
0xF2B136F8, 0x5D5822F0, 0xA0BD6B45, 0x4288B2BB, 0xCE288CC7, 0x6390E893, 0x897C9008, 0xB77DF53C,
0x554F2D04, 0x7EFD1651, 0xC1BEE879, 0xF8D412F2, 0x230584B4, 0x2BD2CCA0, 0xADABE1FD, 0x6C55D10D,
0x4D944123, 0x054F3777, 0x17BF0C28, 0x6C6712B3, 0xF75AC38C, 0x6D2A8441, 0x271294D0, 0x9CEDB42C,
0x8247EC4D, 0xB967D597, 0x55C09D1B, 0x8EE57E07, 0x3EE7A8E2, 0x3A0EE412, 0x3455452A, 0x5A2DF9A2,
0x7C52AB1B, 0x555F1083, 0x435AF1D2, 0xA4A7C62B, 0xE8951589, 0xF89D4BB4, 0x609FE375, 0xE6D65B78,
0x21E6440D, 0x2247BD06, 0xAD00A453, 0x8513438D, 0xFCAAF739, 0xED7BAF38, 0x542BE4FC, 0xFC4C9850,
0xDFF78085, 0xE122803C, 0x24DEDA94, 0x397AB0C6, 0xA10FDC38, 0x6FF9F4A7, 0x8B571863, 0x2E2A4184,
0xD9F253D4, 0xDDD00F00, 0xA6196E99, 0x5BECD00A, 0xC0AB2458, 0xEC6506CB, 0x9438131A, 0x2F03670A,
0x77E3F73F, 0xC6337744, 0xE3D03914, 0x7908A2C0, 0x579940BB, 0x90010B41, 0x48CCE1CD, 0xAFB3DB67,
0x4CF37488, 0xB1728F82, 0xC42923B5, 0xFC196C12, 0x9CA4468E, 0x876525C4, 0x8ABE6DD3, 0x38031193
]

/-- Second half (522 words) of the `KEY_DATA` table. -/
def KEY_DATA_B : List Nat := [
0xF32B83ED, 0xEA93A446, 0x1D85533B, 0x08F1D4CE, 0xFCED2783, 0xBC181A9B, 0xDCAE8BF9, 0x3850AB24,
0x104B72E9, 0x467B1722, 0x6459AB5D, 0xF8AE40F3, 0xF9C8E5BB, 0x554E0326, 0xFEEBEB7D, 0xE0E639F7,
0x2EBE110A, 0xED98FF28, 0x5642C9C0, 0x00FDC342, 0xA287AFF6, 0x323F015B, 0x9A954792, 0x3D32A572,
0x9BD06BAE, 0x9249D207, 0xFA4A78E3, 0xF27D06A1, 0x7477CF41, 0x0CB21404, 0x16648486, 0xA151BBD5,
0xD1F16FE5, 0x5FF7E2F2, 0xB84D2058, 0xDDCFC757, 0x76BED8C5, 0x7E5FF63D, 0x888B2AE7, 0x3F381B24,
0x7723410E, 0xD44BF0F5, 0xA4FA1F0C, 0xCF5F800B, 0xDAE0F645, 0x5359342F, 0x523C20FB, 0xB5355E62,
0x608BFE62, 0x5A86E363, 0xD16E1A15, 0x32BC4547, 0x3867EBB4, 0x336EE4AB, 0xA3EDB53A, 0x4EE067AD,
0x62EE9541, 0x1D267162, 0x3062EF31, 0xAC82D7AF, 0x0405DCC2, 0xBF0797F5, 0x07235911, 0xE80264C0,
0xAF3EE597, 0xA659AC18, 0x90334A8B, 0x9C7C6E1C, 0x3C4C7E20, 0xBB64613E, 0x7E7C6BC5, 0x4CC59F3E,
0xF573EA9F, 0x4CC089D7, 0x2DF4FBF4, 0x511B14EC, 0xC812C1D5, 0x4A0BDF10, 0x93BC9C8B, 0x3E3E6A45,
0xBAA9C17D, 0x07B4C1CD, 0x8668E1E4, 0x386DB243, 0x5C0CFBF3, 0xDE713766, 0xA06EEF56, 0xA7654010,
0xBED0F798, 0x3637C80E, 0x7CCA10EC, 0x1E84AB9C, 0x02761705, 0xAA524F1C, 0xA0C6C15F, 0x04D8B956,
0xA74D4484, 0x60DED859, 0x050E38E6, 0x3BE1038F, 0x3304816D, 0xCE0B306F, 0x33210569, 0x89BB26FB,
0x87AEB67D, 0xE007517E, 0x0A96F7AC, 0x5CC4F96B, 0x4744E41D, 0xE3FA5EB8, 0x42558478, 0xF75E484B,
0x8635477D, 0x05432B1D, 0xB88AEC03, 0x763C061E, 0x431A480C, 0xED8AB7A7, 0x43C6131E, 0xDBEF10EE,
0x833CFBEC, 0xEF4495B2, 0x4E5154D8, 0x1D44112D, 0x1E5936FB, 0xC3C1347A, 0x610057CA, 0x16A567EA,
0x55D0559B, 0x36D97FE1, 0xAE7640D2, 0xB0CE01DC, 0xCBD5837A, 0x6BEC9820, 0x349272C1, 0x375782F3,
0x36328A62, 0xAE43900C, 0x789B5CAE, 0x0265138E, 0xC17168FD, 0xA031B0FE, 0xC3B08224, 0xA76979B1,
0xD0EBD2F5, 0xDC32C082, 0x3C26C79E, 0xC1988D6D, 0xD0D422BB, 0x3EEC330F, 0xDCE1CCB9, 0x36774C6A,
0xBFF91C14, 0x5F289F81, 0x29328571, 0xC4487590, 0xD8CE4AB3, 0x2F148F44, 0xEF5740FD, 0xD97508AA,
0x6ED6D146, 0xC31F5532, 0x1F84FE18, 0xFFD584FC, 0x481B5E71, 0x0E9586C3, 0xD3270828, 0x7B718338,
0x5463804C, 0xACB0569A, 0x31CA80CF, 0xF3FEEF09, 0x7E24AFBE, 0x3F53FEA6, 0x334A8DC2, 0xA622D168,
0xEA7BAD66, 0xB043B6DE, 0x009525A1, 0x46753FA3, 0xEC441114, 0x92BC95D7, 0x16A94FF0, 0x60976253,
0xF1410F2A, 0xEEBE2471, 0xCD087F94, 0x85B39360, 0x3F00075B, 0x83280FD8, 0x9F69D19A, 0xC32EDAD1,
0xB9A20190, 0x662A4E6B, 0xA6AEDA9D, 0x68D32AEA, 0x9C0C0C2F, 0xED4A8CD2, 0x65579EE2, 0xA387099D,
0x5D32C4B4, 0x2B32D4C9, 0x1E71E0B1, 0x90E64D64, 0x401EE371, 0x84F37DED, 0x78C8ED0E, 0x71C0AE76,
0x05BB7227, 0xFB6402EA, 0xB56B48F3, 0xED3F9342, 0xD253139F, 0xEC2AFEF7, 0xDB25471D, 0xC686913C,
0xFD11F08E, 0xF7367423, 0x7A9EF5A4, 0x4450537E, 0xD3CA47D4, 0xE66D38EB, 0x7F9471D9, 0x4B69C64A,
0xEA52F411, 0xB08AFE22, 0x598B6736, 0x2A80E6E8, 0x130465EB, 0x9EDCECEE, 0x05ECB15F, 0x9FE6596A,
0x896B595E, 0xCA1AF7BF, 0x6A5BF944, 0xE4038571, 0x70E06229, 0xCFC4416F, 0xE3CCB1B2, 0xA807A67E,
0x847FE787, 0x4B52DB93, 0xDD7EEC6C, 0x104824D4, 0x60049F69, 0x1848E674, 0xB92CE4F3, 0x7A502E4F,
0x6954D4DF, 0xF3A78B2B, 0xF31FFFCE, 0x3901263E, 0x89849517, 0x4B4CF0B0, 0xC49F9182, 0xA59DAC4B,
0x2517AF74, 0xD332CAC9, 0x848A89BC, 0xAE0DCC89, 0x9CDBA27C, 0xEE91786A, 0x4E5D76EA, 0x69F56087,
0x02D46715, 0x3648AFCF, 0x6FBFEA07, 0x8F062D66, 0xF9FE9AC4, 0x758790F6, 0x0FADF7B8, 0x3D5A1076,
0xB32EB059, 0xCC2C35C7, 0xCB2B5670, 0xC59637E3, 0x8A1B462F, 0x88C74622, 0x983226A7, 0x2286DF61,
0x2F1CF48A, 0xAA09A187, 0xD3AEA9CC, 0x1C4500BD, 0x8687549A, 0xFFEF8752, 0x8FA18F1E, 0x355C89C1,
0x3A2DDA1B, 0xC2B2162C, 0x78E256F1, 0x97636BC1, 0xC98F56C5, 0xAA2C7F32, 0xACA8A6AF, 0x88229120,
0x8B60E4DE, 0x25424BF9, 0x9C7FE31A, 0x3A89192C, 0x36D4057E, 0xC25869CC, 0x2F8B32C1, 0x7AEB8590,
0xA1A55039, 0x66C59227, 0x584F20B0, 0x4383557E, 0x9CE2452B, 0x9012D8E4, 0x5683162C, 0xB3037916,
0x18612DAD, 0x371F131A, 0x739CE1E2, 0xFDD5807B, 0xFC87512D, 0x1FD7AA7B, 0xAF8E7A2C, 0xCDBB8DF4,
0x727C1195, 0xE26FEE0B, 0x37DEAFB9, 0x8D8CDE83, 0xB7670562, 0x568DC696, 0x62D70DB6, 0x3646D6BA,
0xE6C88EBD, 0x106C2AEA, 0x5B6BFF14, 0x463C82FA, 0x464330B1, 0x9B7D8A51, 0x79833E92, 0xB25D555B,
0x90CE5E6C, 0x98538E62, 0xE56D0DC9, 0xC5CD572D, 0xE1BA5781, 0x728FB8E8, 0xDC134FE5, 0x15719DEA,
0x8811B210, 0x7FD409D5, 0x2C7F655B, 0x114C383B, 0xFB8D5068, 0xBF59B09E, 0x4A898094, 0x12181AC5,
0x4AD15389, 0x8CE82910, 0xEAB6EC1C, 0x8B17C746, 0xA8311525, 0xB1436BA2, 0x0BDBE29D, 0x11B09B87,
0xD2710E04, 0x82897729, 0x7F41660A, 0xFF480B1D, 0xFD24BB72, 0x9BA148C2, 0xCE7F7BFE, 0xD986DB88,
0xB01C3B85, 0x0733A8DC, 0xE32E51BF, 0x97009A0E, 0x97C0061E, 0xB6D89D43, 0x6786C445, 0x88F8005F,
0x9E52A49A, 0x838AAAC7, 0x18C5EC75, 0x2FC3CEAE, 0x18F92B1A, 0xF51AAEFF, 0x33B50B53, 0xE8FDA751,
0x64A2E1A8, 0x431722B6, 0xD80ACC80, 0x40BA3BAE, 0x4A92D9D7, 0x1004DF89, 0x2B189BEE, 0x8A69776A,
0xB9F9F468, 0x6E1521A2, 0x033B1EE6, 0x609B3062, 0x9B257E41, 0x52C58F9E, 0xC2F80810, 0x1121A169,
0x795E3788, 0x10FF6635, 0xED6E1842, 0x1C6BB697, 0x6DE5364E, 0xBFE4B47D, 0x05E0B920, 0xB8D5693A,
0xE0DCD5E3, 0x3E53ACB9, 0xAD57A407, 0x1848FF77, 0x49AC2A76, 0x75478E2A, 0x63679F6D, 0x398C3530,
0x6FD53905, 0xAD5B3A64, 0x82BB0BCA, 0xB1459952, 0x99363693, 0x442013AF, 0x4402D836, 0x85923909,
0x974A4AFF, 0xD763A687, 0x24B5B5C7, 0x6FB40FED, 0x1452580C, 0xD37BA6D9, 0x5838BC79, 0x843BBDA1,
0x061AD806, 0xEAA86BFD, 0x0428694B, 0x9982AD37, 0x851B0EFB, 0x735DA8BD, 0x7558DCCD, 0x6C63BE0A,
0xE44CE748, 0x60042B30, 0xDAD815B9, 0x8F758186, 0x1C8DD496, 0x7C85705D, 0xD57B671C, 0xCEA66708,
0x70660A4B, 0xD463E5B7, 0xEA828A5B, 0xE2CA6710, 0x8517EFF4, 0x8A5F2A2F, 0x6AF88297, 0xEA1034D6,
0x3C5CC9EB, 0x46F849E1, 0xF6BDDEEB, 0xAAF192A9, 0xB018A0A6, 0x1F0FD33A, 0x31FF6FF3, 0xD3444345,
0x88F79A50, 0xCEC19609, 0x2CF2CC76, 0x82ADBA2C, 0x84188F77, 0x9C07D2C0, 0x4E839036, 0x434FA50B,
0x78AB043E, 0x09FBD64F, 0xDA902401, 0x613A3C6F, 0x4A697F0D, 0x02302BEB, 0x84E0DBB4, 0x35D7ECA9,
0x857D37BF, 0x4EA9CE58, 0xA8C780E4, 0x486730D3, 0x2FAF29EB, 0xA7B46A74, 0x923F0F3F, 0xACCAF3AF,
0x94D94BAF, 0x81CA43C0, 0xA1482F0D, 0xD2D527B0, 0x85054BEF, 0x934DDEA3, 0xBBF03C30, 0x27308F4A,
0x3EE3EB4C, 0x2F9AED64, 0xF082F13B, 0x7FCFF4BA, 0xE1B0CB40, 0x57AABC7F, 0xF274C9D3, 0x220D43FA,
0x4E77F4D0, 0x7085D793, 0xB6BF991F, 0x30F135DE, 0xF0715EA7, 0x7B2D016B, 0x5333F064, 0xF388390A,
0x6BA63A6B, 0x432FD235, 0xB5FD02CD, 0xAA5BBCE9, 0x7E19A4D8, 0x81945D0E, 0xAD776F9E, 0x93740ED6,
0x18C4E796, 0x19F5AD5F
]

/-- Encryption key data from the ARM7 BIOS (`KEY_DATA` in
`rom/src/nds/encrypt/key1.rs`), 0x412 little-endian 32-bit words, in order.
It is stated as the concatenation of two halves only so that the 32-bit
bound on its entries can be checked without overflowing the recursion
limits of the proof checker. -/
def KEY_DATA : List Nat := KEY_DATA_A ++ KEY_DATA_B

/-- S-box combination step of `Key1::lookup`: the four bytes of `x` (most to
least significant) index the four S-boxes stored in `key_buf` from offset
0x12 on, combined with wrapping 32-bit arithmetic. -/
def lookup (key_buf : List Nat) (x : Nat) : Nat :=
  let a := x >>> 24 &&& 0xFF
  let b := x >>> 16 &&& 0xFF
  let c := x >>> 8 &&& 0xFF
  let d := x >>> 0 &&& 0xFF
  let a := key_buf.getD (a + 0x12 + 0x000) 0
  let b := key_buf.getD (b + 0x12 + 0x100) 0
  let c := key_buf.getD (c + 0x12 + 0x200) 0
  let d := key_buf.getD (d + 0x12 + 0x300) 0
  (((a + b) % 2 ^ 32 ^^^ c) + d) % 2 ^ 32

/-- One iteration of the loop in `Key1::encrypt` (loop index `i`). -/
def enc_round (key_buf : List Nat) (i : Nat) (lr : Nat × Nat) : Nat × Nat :=
  let r := lr.2 ^^^ key_buf.getD (2 * i) 0
  let l := lr.1 ^^^ lookup key_buf r
  let l := l ^^^ key_buf.getD (2 * i + 1) 0
  let r := r ^^^ lookup key_buf l
  (l, r)

/-- The loop of `Key1::encrypt`: `enc_rounds key_buf n` runs the round bodies
for `i = 0, …, n-1` in order (`for i in 0x0..0x8` with `n = 8`). -/
def enc_rounds (key_buf : List Nat) : Nat → Nat × Nat → Nat × Nat
  | 0, lr => lr
  | n + 1, lr => enc_round key_buf n (enc_rounds key_buf n lr)

/-- `Key1::encrypt` on a pair of 32-bit words: eight Feistel rounds followed
by the final whitening with `P[0x10]`/`P[0x11]`, returning the swapped pair. -/
def encrypt (key_buf : List Nat) (l r : Nat) : Nat × Nat :=
  let lr := enc_rounds key_buf 8 (l, r)
  (lr.2 ^^^ key_buf.getD 0x10 0, lr.1 ^^^ key_buf.getD 0x11 0)

/-- One iteration of the loop in `Key1::decrypt` (loop index `i`). -/
def dec_round (key_buf : List Nat) (i : Nat) (lr : Nat × Nat) : Nat × Nat :=
  let r := lr.2 ^^^ key_buf.getD (2 * i + 1) 0
  let l := lr.1 ^^^ lookup key_buf r
  let l := l ^^^ key_buf.getD (2 * i) 0
  let r := r ^^^ lookup key_buf l
  (l, r)

/-- The loop of `Key1::decrypt`: `dec_rounds key_buf n` runs the round bodies
for `i = n, …, 1` in that order (`for i in (0x1..0x9).rev()` with `n = 8`). -/
def dec_rounds (key_buf : List Nat) : Nat → Nat × Nat → Nat × Nat
  | 0, lr => lr
  | n + 1, lr => dec_rounds key_buf n (dec_round key_buf (n + 1) lr)

/-- `Key1::decrypt` on a pair of 32-bit words: the mirror image of `encrypt`,
finishing with `P[0x1]`/`P[0x0]` and returning the swapped pair. -/
def decrypt (key_buf : List Nat) (l r : Nat) : Nat × Nat :=
  let lr := dec_rounds key_buf 8 (l, r)
  (lr.2 ^^^ key_buf.getD 0x1 0, lr.1 ^^^ key_buf.getD 0x0 0)

/-- First loop of `Key1::expand_key`: XOR the byte-swapped key words into the
first 0x12 buffer entries (`key_buf[i] ^= key[i & 1].swap_bytes()` for
`i = 0, …, n-1`; the source only ever uses `key[i % 2]`, so only the first
two key words participate). -/
def expand_xor (k0 k1 : Nat) : Nat → List Nat → List Nat
  | 0, kb => kb
  | i + 1, kb =>
    let kb := expand_xor k0 k1 i kb
    kb.set i (kb.getD i 0 ^^^ swapBytes32 (if i &&& 1 = 0 then k0 else k1))

/-- Second loop of `Key1::expand_key`: starting from the buffer `kb` and the
running pair `(l, r)`, repeatedly encrypt the pair with the current buffer
and overwrite `key_buf[2i]` and `key_buf[2i+1]` with the swapped result, for
`i = 0, …, n-1`. Returns the final buffer together with the running pair. -/
def expand_p : Nat → List Nat → Nat → Nat → List Nat × Nat × Nat
  | 0, kb, l, r => (kb, l, r)
  | i + 1, kb, l, r =>
    let s := expand_p i kb l r
    let lr := encrypt s.1 s.2.1 s.2.2
    ((s.1.set (2 * i) lr.2).set (2 * i + 1) lr.1, lr)

/-- Third loop of `Key1::expand_key`: same as `expand_p` but overwriting the
S-box region, entries `key_buf[0x12 + 2i]` and `key_buf[0x12 + 2i + 1]`. -/
def expand_s : Nat → List Nat → Nat → Nat → List Nat × Nat × Nat
  | 0, kb, l, r => (kb, l, r)
  | i + 1, kb, l, r =>
    let s := expand_s i kb l r
    let lr := encrypt s.1 s.2.1 s.2.2
    ((s.1.set (0x12 + 2 * i) lr.2).set (0x12 + 2 * i + 1) lr.1, lr)

/-- `Key1::expand_key`: XOR phase over `P[0..0x12)`, then the `lr` chain
starting from `(0, 0)` rewriting first the 9 P-word pairs and then the
0x200 S-box pairs. -/
def expand_key (key_buf : List Nat) (k0 k1 : Nat) : List Nat :=
  let kb := expand_xor k0 k1 0x12 key_buf
  let p := expand_p 0x9 kb 0 0
  (expand_s 0x200 p.1 p.2.1 p.2.2).1

/-- `Key1::apply_keycode` on key words `a, b, c`: double-encrypt the key words
through the current cipher state, then re-expand the buffer with the
resulting key. Returns the new buffer together with the updated key words. -/
def apply_keycode (key_buf : List Nat) (a b c : Nat) : List Nat × Nat × Nat × Nat :=
  let bc := encrypt key_buf b c
  let ab := encrypt key_buf a bc.1
  (expand_key key_buf ab.1 ab.2, ab.1, ab.2, bc.2)

/-- `Key1::init1`: level-1 key schedule, one keycode application to the base
key `[game_code, game_code >> 1, game_code << 1]` (all words 32-bit). -/
def init1 (game_code : Nat) : List Nat :=
  (apply_keycode KEY_DATA game_code (game_code >>> 1) (game_code <<< 1 % 2 ^ 32)).1

/-- `Key1::init2`: level-2 key schedule (two keycode applications). -/
def init2 (game_code : Nat) : List Nat :=
  let s := apply_keycode KEY_DATA game_code (game_code >>> 1) (game_code <<< 1 % 2 ^ 32)
  (apply_keycode s.1 s.2.1 s.2.2.1 s.2.2.2).1

/-- `Key1::init3`: level-3 key schedule (two keycode applications, then
`key[1] <<= 1` and `key[2] >>= 1`, then a third keycode application). -/
def init3 (game_code : Nat) : List Nat :=
  let s := apply_keycode KEY_DATA game_code (game_code >>> 1) (game_code <<< 1 % 2 ^ 32)
  let s := apply_keycode s.1 s.2.1 s.2.2.1 s.2.2.2
  (apply_keycode s.1 s.2.1 (s.2.2.1 <<< 1 % 2 ^ 32) (s.2.2.2 >>> 1)).1

/-- `Key1::encrypt_block`: interpret the first 4 bytes as little-endian `l`
and the next 4 as little-endian `r`, encrypt, write back little-endian. -/
def encrypt_block (key_buf : List Nat) (block : List Nat) : List Nat :=
  let l := readU32LE block
  let r := readU32LE (block.drop 4)
  let lr := encrypt key_buf l r
  writeU32LE lr.1 ++ writeU32LE lr.2

/-- `Key1::decrypt_block`: interpret the first 4 bytes as little-endian `l`
and the next 4 as little-endian `r`, decrypt, write back little-endian. -/
def decrypt_block (key_buf : List Nat) (block : List Nat) : List Nat :=
  let l := readU32LE block
  let r := readU32LE (block.drop 4)
  let lr := decrypt key_buf l r
  writeU32LE lr.1 ++ writeU32LE lr.2

end Key1

theorem nat_xor_left_comm (a b c : Nat) : a ^^^ (b ^^^ c) = b ^^^ (a ^^^ c) := by
  rw [← Nat.xor_assoc, Nat.xor_comm a b, Nat.xor_assoc]

namespace Key1

/-- One decryption round with index `j + 1` undoes one encryption round with
index `j`, up to re-keying of the carried pair. -/
theorem dec_round_enc_round (kb : List Nat) (j : Nat) (lr : Nat × Nat) :
    dec_round kb (j + 1)
      ((enc_round kb j lr).2 ^^^ kb.getD (2 * (j + 1)) 0,
       (enc_round kb j lr).1 ^^^ kb.getD (2 * (j + 1) + 1) 0)
      = (lr.2 ^^^ kb.getD (2 * j) 0, lr.1 ^^^ kb.getD (2 * j + 1) 0) := by
  obtain ⟨l, r⟩ := lr
  simp only [enc_round, dec_round]
  simp [Nat.xor_assoc, Nat.xor_comm, nat_xor_left_comm, Nat.xor_cancel_left,
    Nat.xor_cancel_right]

/-- The decryption loop undoes the encryption loop. -/
theorem dec_rounds_enc_rounds (kb : List Nat) (n : Nat) : ∀ l r : Nat,
    dec_rounds kb n
      ((enc_rounds kb n (l, r)).2 ^^^ kb.getD (2 * n) 0,
       (enc_rounds kb n (l, r)).1 ^^^ kb.getD (2 * n + 1) 0)
      = (r ^^^ kb.getD 0 0, l ^^^ kb.getD 1 0) := by
  induction n with
  | zero => intro l r; simp [enc_rounds, dec_rounds]
  | succ n ih =>
    intro l r
    simp only [enc_rounds, dec_rounds]
    rw [dec_round_enc_round]
    exact ih l r

/-- Word-level inversion: for any cipher state, `decrypt` inverts `encrypt`. -/
theorem decrypt_encrypt (kb : List Nat) (l r : Nat) :
    decrypt kb (encrypt kb l r).1 (encrypt kb l r).2 = (l, r) := by
  have h := dec_rounds_enc_rounds kb 8 l r
  have e1 : 2 * 8 = 16 := rfl
  have e2 : 2 * 8 + 1 = 17 := rfl
  rw [e1, e2] at h
  simp only [encrypt, decrypt]
  rw [h]
  simp [Nat.xor_cancel_right]

end Key1

theorem list_getD_lt {l : List Nat} {c : Nat} (h : ∀ x ∈ l, x < c) (hc : 0 < c) (i : Nat) :
    l.getD i 0 < c := by
  rw [List.getD_eq_getElem?_getD]
  cases hli : l[i]? with
  | none => simpa using hc
  | some v => simpa using h v (List.getElem?_mem hli)

theorem swapBytes32_lt (x : Nat) : swapBytes32 x < 2 ^ 32 := by
  unfold swapBytes32
  omega

namespace Key1

/-- All words of a cipher state are 32-bit values. -/
def Bounded (kb : List Nat) : Prop := ∀ i, kb.getD i 0 < 2 ^ 32

theorem lookup_lt (kb : List Nat) (x : Nat) : lookup kb x < 2 ^ 32 := by
  simp only [lookup]
  exact Nat.mod_lt _ (by norm_num)

theorem bounded_set {kb : List Nat} {v : Nat} (h : Bounded kb) (hv : v < 2 ^ 32) (i : Nat) :
    Bounded (kb.set i v) := by
  intro j
  have hj := h j
  simp only [List.getD_eq_getElem?_getD] at hj ⊢
  rw [List.getElem?_set]
  split
  · split
    · simpa using hv
    · norm_num
  · exact hj

theorem enc_round_lt {kb : List Nat} (h : Bounded kb) {lr : Nat × Nat} (h1 : lr.1 < 2 ^ 32)
    (h2 : lr.2 < 2 ^ 32) (i : Nat) :
    (enc_round kb i lr).1 < 2 ^ 32 ∧ (enc_round kb i lr).2 < 2 ^ 32 := by
  simp only [enc_round]
  constructor
  · exact Nat.xor_lt_two_pow (Nat.xor_lt_two_pow h1 (lookup_lt _ _)) (h _)
  · exact Nat.xor_lt_two_pow (Nat.xor_lt_two_pow h2 (h _)) (lookup_lt _ _)

theorem enc_rounds_lt {kb : List Nat} (h : Bounded kb) (n : Nat) :
    ∀ lr : Nat × Nat, lr.1 < 2 ^ 32 → lr.2 < 2 ^ 32 →
      (enc_rounds kb n lr).1 < 2 ^ 32 ∧ (enc_rounds kb n lr).2 < 2 ^ 32 := by
  induction n with
  | zero => intro lr h1 h2; exact ⟨h1, h2⟩
  | succ n ih =>
    intro lr h1 h2
    have := ih lr h1 h2
    simpa only [enc_rounds] using enc_round_lt h this.1 this.2 n

theorem encrypt_lt {kb : List Nat} (h : Bounded kb) {l r : Nat} (hl : l < 2 ^ 32)
    (hr : r < 2 ^ 32) : (encrypt kb l r).1 < 2 ^ 32 ∧ (encrypt kb l r).2 < 2 ^ 32 := by
  have hlr := enc_rounds_lt h 8 (l, r) hl hr
  simp only [encrypt]
  exact ⟨Nat.xor_lt_two_pow hlr.2 (h _), Nat.xor_lt_two_pow hlr.1 (h _)⟩

theorem bounded_expand_xor (k0 k1 : Nat) (n : Nat) {kb : List Nat} (h : Bounded kb) :
    Bounded (expand_xor k0 k1 n kb) := by
  induction n with
  | zero => exact h
  | succ n ih =>
    simp only [expand_xor]
    exact bounded_set ih (Nat.xor_lt_two_pow (ih n) (swapBytes32_lt _)) n

theorem bounded_expand_p (n : Nat) (kb : List Nat) (l r : Nat) (h : Bounded kb)
    (h1 : l < 2 ^ 32) (h2 : r < 2 ^ 32) :
    Bounded (expand_p n kb l r).1 ∧ (expand_p n kb l r).2.1 < 2 ^ 32 ∧
      (expand_p n kb l r).2.2 < 2 ^ 32 := by
  induction n with
  | zero => exact ⟨h, h1, h2⟩
  | succ n ih =>
    obtain ⟨hb, ha, hc⟩ := ih
    have he := encrypt_lt hb ha hc
    simp only [expand_p]
    exact ⟨bounded_set (bounded_set hb he.2 _) he.1 _, he.1, he.2⟩

theorem bounded_expand_s (n : Nat) (kb : List Nat) (l r : Nat) (h : Bounded kb)
    (h1 : l < 2 ^ 32) (h2 : r < 2 ^ 32) :
    Bounded (expand_s n kb l r).1 ∧ (expand_s n kb l r).2.1 < 2 ^ 32 ∧
      (expand_s n kb l r).2.2 < 2 ^ 32 := by
  induction n with
  | zero => exact ⟨h, h1, h2⟩
  | succ n ih =>
    obtain ⟨hb, ha, hc⟩ := ih
    have he := encrypt_lt hb ha hc
    simp only [expand_s]
    exact ⟨bounded_set (bounded_set hb he.2 _) he.1 _, he.1, he.2⟩

theorem bounded_expand_key {kb : List Nat} (h : Bounded kb) (k0 k1 : Nat) :
    Bounded (expand_key kb k0 k1) := by
  simp only [expand_key]
  have h1 := bounded_expand_xor k0 k1 0x12 h
  have h2 := bounded_expand_p 0x9 (expand_xor k0 k1 0x12 kb) 0 0 h1
    (by norm_num) (by norm_num)
  have h3 := bounded_expand_s 0x200 (expand_p 0x9 (expand_xor k0 k1 0x12 kb) 0 0).1
    (expand_p 0x9 (expand_xor k0 k1 0x12 kb) 0 0).2.1
    (expand_p 0x9 (expand_xor k0 k1 0x12 kb) 0 0).2.2 h2.1 h2.2.1 h2.2.2
  exact h3.1

theorem bounded_apply_keycode {kb : List Nat} (h : Bounded kb) (a b c : Nat)
    (h1 : a < 2 ^ 32) (h2 : b < 2 ^ 32) (h3 : c < 2 ^ 32) :
    Bounded (apply_keycode kb a b c).1 ∧ (apply_keycode kb a b c).2.1 < 2 ^ 32 ∧
      (apply_keycode kb a b c).2.2.1 < 2 ^ 32 ∧ (apply_keycode kb a b c).2.2.2 < 2 ^ 32 := by
  have hbc := encrypt_lt h h2 h3
  have hab := encrypt_lt h h1 hbc.1
  simp only [apply_keycode]
  exact ⟨bounded_expand_key h _ _, hab.1, hab.2, hbc.2⟩

theorem bounded_KEY_DATA : Bounded KEY_DATA := by
  have hA : ∀ x ∈ KEY_DATA_A, x < 2 ^ 32 := by decide
  have hB : ∀ x ∈ KEY_DATA_B, x < 2 ^ 32 := by decide
  have h : ∀ x ∈ KEY_DATA, x < 2 ^ 32 := by
    simp only [KEY_DATA, List.forall_mem_append]
    exact ⟨hA, hB⟩
  exact fun i => list_getD_lt h (by norm_num) i

theorem shiftRight_lt {x n : Nat} (h : x < 2 ^ 32) : x >>> n < 2 ^ 32 := by
  simp only [Nat.shiftRight_eq_div_pow]
  exact Nat.lt_of_le_of_lt (Nat.div_le_self _ _) h

theorem bounded_init1 {game_code : Nat} (h : game_code < 2 ^ 32) :
    Bounded (init1 game_code) := by
  exact (bounded_apply_keycode bounded_KEY_DATA game_code (game_code >>> 1)
    (game_code <<< 1 % 2 ^ 32) h (shiftRight_lt h) (Nat.mod_lt _ (by norm_num))).1

theorem bounded_init2 {game_code : Nat} (h : game_code < 2 ^ 32) :
    Bounded (init2 game_code) := by
  have h1 := bounded_apply_keycode bounded_KEY_DATA game_code (game_code >>> 1)
    (game_code <<< 1 % 2 ^ 32) h (shiftRight_lt h) (Nat.mod_lt _ (by norm_num))
  exact (bounded_apply_keycode h1.1 _ _ _ h1.2.1 h1.2.2.1 h1.2.2.2).1

theorem bounded_init3 {game_code : Nat} (h : game_code < 2 ^ 32) :
    Bounded (init3 game_code) := by
  have h1 := bounded_apply_keycode bounded_KEY_DATA game_code (game_code >>> 1)
    (game_code <<< 1 % 2 ^ 32) h (shiftRight_lt h) (Nat.mod_lt _ (by norm_num))
  have h2 := bounded_apply_keycode h1.1 _ _ _ h1.2.1 h1.2.2.1 h1.2.2.2
  exact (bounded_apply_keycode h2.1 _ (_ <<< 1 % 2 ^ 32) (_ >>> 1) h2.2.1
    (Nat.mod_lt _ (by norm_num)) (shiftRight_lt h2.2.2.2)).1

end Key1

theorem readU32LE_writeU32LE {x : Nat} (h : x < 2 ^ 32) : readU32LE (writeU32LE x) = x := by
  simp only [readU32LE, writeU32LE, List.getD_cons_zero, List.getD_cons_succ]
  omega

theorem writeU32LE_mem_lt (x : Nat) : ∀ b ∈ writeU32LE x, b < 256 := by
  simp only [writeU32LE, List.mem_cons, List.not_mem_nil, or_false]
  rintro b (rfl | rfl | rfl | rfl) <;> omega

theorem readU32LE_lt {bs : List Nat} (h : ∀ b ∈ bs, b < 256) : readU32LE bs < 2 ^ 32 := by
  have h0 := list_getD_lt h (by norm_num) 0
  have h1 := list_getD_lt h (by norm_num) 1
  have h2 := list_getD_lt h (by norm_num) 2
  have h3 := list_getD_lt h (by norm_num) 3
  simp only [readU32LE]
  omega

namespace Key1

/-- Block-level inversion for an arbitrary 32-bit-bounded cipher state:
`decrypt_block` undoes `encrypt_block` on any 8-byte block. -/
theorem decrypt_block_encrypt_block {kb : List Nat} (hkb : Bounded kb) {b : List Nat}
    (hlen : b.length = 8) (hb : ∀ x ∈ b, x < 256) :
    decrypt_block kb (encrypt_block kb b) = b := by
  rcases b with _ | ⟨b0, b⟩; · simp at hlen
  rcases b with _ | ⟨b1, b⟩; · simp at hlen
  rcases b with _ | ⟨b2, b⟩; · simp at hlen
  rcases b with _ | ⟨b3, b⟩; · simp at hlen
  rcases b with _ | ⟨b4, b⟩; · simp at hlen
  rcases b with _ | ⟨b5, b⟩; · simp at hlen
  rcases b with _ | ⟨b6, b⟩; · simp at hlen
  rcases b with _ | ⟨b7, b⟩; · simp at hlen
  rcases b with _ | ⟨b8, b⟩
  swap; · simp at hlen
  have hl : readU32LE [b0, b1, b2, b3, b4, b5, b6, b7] < 2 ^ 32 := readU32LE_lt hb
  have hr : readU32LE [b4, b5, b6, b7] < 2 ^ 32 := by
    refine readU32LE_lt fun x hx => hb x ?_
    simp only [List.mem_cons] at hx ⊢
    tauto
  have he := encrypt_lt hkb hl hr
  have hde := decrypt_encrypt kb (readU32LE [b0, b1, b2, b3, b4, b5, b6, b7])
    (readU32LE [b4, b5, b6, b7])
  rcases hEe : encrypt kb (readU32LE [b0, b1, b2, b3, b4, b5, b6, b7])
      (readU32LE [b4, b5, b6, b7]) with ⟨E1, E2⟩
  rw [hEe] at he hde
  have he1 : E1 < 2 ^ 32 := he.1
  have he2 : E2 < 2 ^ 32 := he.2
  have hde' : decrypt kb E1 E2 =
      (readU32LE [b0, b1, b2, b3, b4, b5, b6, b7], readU32LE [b4, b5, b6, b7]) := hde
  simp only [encrypt_block, decrypt_block, List.drop_succ_cons, List.drop_zero, hEe]
  have h4 : (writeU32LE E1 ++ writeU32LE E2).drop 4 = writeU32LE E2 :=
    List.drop_left' (by simp [writeU32LE])
  have h5 : readU32LE (writeU32LE E1 ++ writeU32LE E2) = E1 := by
    have h6 : readU32LE (writeU32LE E1 ++ writeU32LE E2) = readU32LE (writeU32LE E1) := by
      simp [readU32LE, writeU32LE]
    rw [h6, readU32LE_writeU32LE he1]
  rw [h4, h5, readU32LE_writeU32LE he2, hde']
  have hb0 : b0 < 256 := hb b0 (by simp)
  have hb1 : b1 < 256 := hb b1 (by simp)
  have hb2 : b2 < 256 := hb b2 (by simp)
  have hb3 : b3 < 256 := hb b3 (by simp)
  have hb4 : b4 < 256 := hb b4 (by simp)
  have hb5 : b5 < 256 := hb b5 (by simp)
  have hb6 : b6 < 256 := hb b6 (by simp)
  have hb7 : b7 < 256 := hb b7 (by simp)
  simp only [readU32LE, writeU32LE, List.getD_cons_zero, List.getD_cons_succ,
    List.cons_append, List.nil_append, List.cons.injEq, and_true]
  omega

end Key1

/-- Claim C1: for every 32-bit game code, at each of the three KEY1 levels
(`init1`, `init2`, `init3`), applying `encrypt_block` to an 8-byte block and
then `decrypt_block` with the same state returns the original block. -/
theorem c1_key1_block_roundtrip (game_code : Nat) (hgc : game_code < 2 ^ 32)
    (b : List Nat) (hlen : b.length = 8) (hb : ∀ x ∈ b, x < 256) :
    Key1.decrypt_block (Key1.init1 game_code) (Key1.encrypt_block (Key1.init1 game_code) b) = b ∧
    Key1.decrypt_block (Key1.init2 game_code) (Key1.encrypt_block (Key1.init2 game_code) b) = b ∧
    Key1.decrypt_block (Key1.init3 game_code) (Key1.encrypt_block (Key1.init3 game_code) b) = b :=
  ⟨Key1.decrypt_block_encrypt_block (Key1.bounded_init1 hgc) hlen hb,
   Key1.decrypt_block_encrypt_block (Key1.bounded_init2 hgc) hlen hb,
   Key1.decrypt_block_encrypt_block (Key1.bounded_init3 hgc) hlen hb⟩

/-- Witness for claim C1 at the game code 0x454B4D41 and a concrete block. -/
theorem c1_key1_block_roundtrip_witness :
    0x454B4D41 < 2 ^ 32 ∧
    (Key1.decrypt_block (Key1.init1 0x454B4D41)
        (Key1.encrypt_block (Key1.init1 0x454B4D41) [0, 1, 2, 3, 4, 5, 6, 7]) =
        [0, 1, 2, 3, 4, 5, 6, 7] ∧
      Key1.decrypt_block (Key1.init2 0x454B4D41)
        (Key1.encrypt_block (Key1.init2 0x454B4D41) [0, 1, 2, 3, 4, 5, 6, 7]) =
        [0, 1, 2, 3, 4, 5, 6, 7] ∧
      Key1.decrypt_block (Key1.init3 0x454B4D41)
        (Key1.encrypt_block (Key1.init3 0x454B4D41) [0, 1, 2, 3, 4, 5, 6, 7]) =
        [0, 1, 2, 3, 4, 5, 6, 7]) :=
  ⟨by norm_num,
   c1_key1_block_roundtrip 0x454B4D41 (by norm_num) [0, 1, 2, 3, 4, 5, 6, 7]
     (by decide) (by decide)⟩

/-- SRAM backing-storage kind (`SramKind` in `rom/src/nds/roms.rs`). -/
inductive SramKind where
  | None
  | Eeprom512B
  | Eeprom8KB
  | Eeprom64KB
  | Eeprom128KB
  | Flash256KB
  | Flash512KB
  | Flash1MB
  | Nand8MB
  | Nand16MB
  | Nand64MB
deriving DecidableEq

/-- Coarse memory kind (`MemoryKind` in `rom/src/nds/roms.rs`). -/
inductive MemoryKind where
  | None
  | EepromSmall
  | EepromRegular
  | Flash
  | Nand
deriving DecidableEq

/-- `SramKind::memory_kind`. -/
def SramKind.memory_kind : SramKind → MemoryKind
  | SramKind.None => MemoryKind.None
  | SramKind.Eeprom512B => MemoryKind.EepromSmall
  | SramKind.Eeprom8KB | SramKind.Eeprom64KB | SramKind.Eeprom128KB => MemoryKind.EepromRegular
  | SramKind.Flash256KB | SramKind.Flash512KB | SramKind.Flash1MB => MemoryKind.Flash
  | SramKind.Nand8MB | SramKind.Nand16MB | SramKind.Nand64MB => MemoryKind.Nand

/-- ROM parameters (`RomParams`): resolved ROM size in bytes and SRAM kind. -/
structure RomParams where
  rom_size : Nat
  sram_kind : SramKind
deriving DecidableEq

/-- The NDS cartridge header (`NdsHeader`), restricted to the fields that
participate in the loader behaviour under study. Byte lists model the raw
ASCII arrays; integer fields are the decoded little-endian values. -/
structure NdsHeader where
  /-- Game code, 4 ASCII bytes at offset 0x00C. -/
  game_code : List Nat
  /-- Unit code byte at offset 0x012. -/
  unit_code : Nat
  /-- ARM9 ROM offset, 32-bit little-endian at offset 0x020. -/
  arm9_rom_offset : Nat
  /-- Banner offset, 32-bit little-endian at offset 0x068. -/
  banner_offset : Nat
  /-- Total ROM size, 32-bit little-endian at offset 0x080. -/
  rom_size : Nat
deriving DecidableEq

namespace NdsHeader

/-- `NdsHeader::SIZE`: the size of a header in bytes. -/
def SIZE : Nat := 512

/-- `NdsHeader::read`: reinterpret the first 512 bytes of the buffer as a
header (little-endian field decoding). The source asserts
`rom.len() >= NdsHeader::SIZE`; a shorter buffer is a panic, modelled as
`none`. -/
def read (rom : List Nat) : Option NdsHeader :=
  if SIZE ≤ rom.length then
    some
      { game_code := (rom.drop 0x0C).take 4
        unit_code := rom.getD 0x12 0
        arm9_rom_offset := readU32LE (rom.drop 0x20)
        banner_offset := readU32LE (rom.drop 0x68)
        rom_size := readU32LE (rom.drop 0x80) }
  else none

/-- `NdsHeader::is_dsi`: bit 1 of the unit code. -/
def is_dsi (h : NdsHeader) : Bool := h.unit_code &&& 0x02 != 0

/-- `NdsHeader::is_homebrew`: ARM9 boot code below the secure-area region, or
the four-`#` sentinel game code (`#` is byte 0x23). -/
def is_homebrew (h : NdsHeader) : Bool :=
  decide (h.arm9_rom_offset < 0x4000) || h.game_code == [0x23, 0x23, 0x23, 0x23]

/-- `NdsHeader::has_secure_area`:
`arm9_rom_offset < 0x8000 && arm9_rom_offset >= 0x4000`. -/
def has_secure_area (h : NdsHeader) : Bool :=
  decide (h.arm9_rom_offset < 0x8000) && decide (h.arm9_rom_offset ≥ 0x4000)

/-- `NdsHeader::game_code` the method: the game code bytes as a little-endian
32-bit value (`u32::from_le_bytes`). Named `game_code_u32` here because the
field keeps the name `game_code`. -/
def game_code_u32 (h : NdsHeader) : Nat := readU32LE h.game_code

end NdsHeader

/-- `NdsBanner::SIZE`: the size of a banner in bytes. -/
def NdsBanner.SIZE : Nat := 9152

/-- Magic little-endian bytes of the destroyed secure-area ID `0xE7FFDEFF`
(`E7FFDEFF` in `NdsRom::init_secure_area`). -/
def E7FFDEFF : List Nat := [0xFF, 0xDE, 0xFF, 0xE7]

/-- The ASCII bytes of the secure-area ID `"encryObj"`. -/
def encryObjBytes : List Nat := [0x65, 0x6E, 0x63, 0x72, 0x79, 0x4F, 0x62, 0x6A]

namespace Key1

/-- ECB-style block loop: encrypt the first `n` consecutive 8-byte blocks of
the buffer independently, leaving the rest (and any trailing partial block)
untouched. -/
def encrypt_blocks (key_buf : List Nat) : Nat → List Nat → List Nat
  | 0, bs => bs
  | n + 1, bs =>
    if 8 ≤ bs.length then
      encrypt_block key_buf (bs.take 8) ++ encrypt_blocks key_buf n (bs.drop 8)
    else bs

/-- Modelled from the spec: the definition of `Key1::encrypt_secure_area` is
absent from the source snapshot (only its call site in
`NdsRom::init_secure_area` appears). Per the spec, the repair (a) overwrites
the first 8 bytes of the secure area with the literal ASCII bytes
`"encryObj"`, (b) encrypts each of the 256 sequential 8-byte blocks of the
first 0x800 bytes independently with a level-3 KEY1 state keyed by the game
code, and (c) encrypts only the first 8-byte block a second time with a
level-2 KEY1 state keyed by the same game code. -/
def encrypt_secure_area (secure_area : List Nat) (game_code : Nat) : List Nat :=
  let sa := encryObjBytes ++ secure_area.drop 8
  let sa := encrypt_blocks (init3 game_code) 0x100 sa
  encrypt_block (init2 game_code) (sa.take 8) ++ sa.drop 8

end Key1

/-- Chip-ID synthesis from `NdsRom::load_data`: base `0xC2`; size field at
bits `[15:8]` from the buffer length (with the `as u32` cast of the source
modelled by `% 2 ^ 32`); bit 27 for DSi; `0x48000000` for NAND, else bit 31
for a resolved ROM size of at least 128MiB. -/
def gen_chip_id (rom_size : Nat) (is_dsi : Bool) (params : RomParams) : Nat :=
  let chip_id := 0x000000C2
  let chip_id :=
    if 256 * 1024 * 1024 ≤ rom_size then
      chip_id ||| (0x100 - (rom_size % 2 ^ 32) >>> 28) <<< 8
    else if 1024 * 1024 ≤ rom_size ∧ rom_size ≤ 128 * 1024 * 1024 then
      chip_id ||| ((rom_size % 2 ^ 32) >>> 20 - 1) <<< 8
    else chip_id
  let chip_id := if is_dsi then chip_id ||| 0x08000000 else chip_id
  if params.sram_kind.memory_kind == MemoryKind.Nand then chip_id ||| 0x48000000
  else if 128 * 1024 * 1024 ≤ params.rom_size then chip_id ||| 0x80000000
  else chip_id

/-- The loaded NDS ROM (`NdsRom`). The banner is tracked only by presence. -/
structure NdsRom where
  rom : List Nat
  header : NdsHeader
  banner : Bool
  params : RomParams
  chip_id : Nat
deriving DecidableEq

namespace NdsRom

/-- `NdsRom::init_secure_area`, acting on the owned buffer: when the header
has a secure area, slice `rom[arm9_rom_offset..0x8000]` (a panic, modelled
as `none`, when the buffer is shorter than 0x8000), and re-encrypt it in
place when its first four bytes are the destroyed-ID magic while the four
bytes at 0x10 are not. Out-of-range slicing inside the comparisons is also
a panic; `&&` is short-circuiting, so the second comparison is only reached
when the first succeeds. -/
def init_secure_area (rom : List Nat) (header : NdsHeader) (game_code : Nat) :
    Option (List Nat) :=
  if header.has_secure_area then
    if 0x8000 ≤ rom.length then
      let off := header.arm9_rom_offset
      let secure_area := (rom.drop off).take (0x8000 - off)
      if 4 ≤ secure_area.length then
        if secure_area.take 4 = E7FFDEFF then
          if 0x14 ≤ secure_area.length then
            if (secure_area.drop 0x10).take 4 ≠ E7FFDEFF then
              some (rom.take off ++ Key1.encrypt_secure_area secure_area game_code ++
                rom.drop 0x8000)
            else some rom
          else none
        else some rom
      else none
    else none
  else some rom

/-- `NdsRom::load_data`: decode the header, decode the banner when the banner
offset is nonzero (the read asserts the buffer holds a full banner; failing
the assertion is a panic, modelled as `none`), resolve the ROM parameters
through the injected lookup table with the homebrew-aware fallback (whose
`rom_size as u32` wrapping cast is modelled by `% 2 ^ 32`), synthesise the
chip ID, and repair the secure area if needed. -/
def load_data (table : Nat → Option RomParams) (rom : List Nat) (rom_data_size : Nat) :
    Option NdsRom :=
  (NdsHeader.read rom).bind fun header =>
  (match header.banner_offset with
   | 0 => some false
   | offset => if offset + NdsBanner.SIZE ≤ rom.length then some true else none).bind fun banner =>
  let game_code := header.game_code_u32
  let params :=
    match table game_code with
    | some params => params
    | none =>
      { rom_size := rom.length % 2 ^ 32
        sram_kind := if header.is_homebrew then SramKind.None else SramKind.Eeprom64KB }
  let chip_id := gen_chip_id rom.length header.is_dsi params
  (init_secure_area rom header game_code).bind fun rom2 =>
  some { rom := rom2, header := header, banner := banner, params := params,
         chip_id := chip_id }

/-- The size-rounding loop shared by `NdsRom::load` and `NdsRom::open`:
`while rom_size < len { rom_size <<= 1 }`. The first `Nat` argument is an
explicit bound on the number of doublings, needed only for termination;
`rom_buf_size` supplies one that is always sufficient. -/
def grow_rom_size (len : Nat) : Nat → Nat → Nat
  | 0, size => size
  | fuel + 1, size => if size < len then grow_rom_size len fuel (size <<< 1) else size

/-- The buffer size allocated for a raw input of `len` bytes: the rounding
loop started at `NdsHeader::SIZE`. -/
def rom_buf_size (len : Nat) : Nat := grow_rom_size len len NdsHeader.SIZE

/-- `NdsRom::load`: allocate a zero-filled buffer of the rounded size, copy
the input bytes to its front, and hand it to `load_data` (the `io::Result`
of the source is always `Ok`; panics are modelled as `none`). -/
def load (table : Nat → Option RomParams) (bytes : List Nat) : Option NdsRom :=
  let len := bytes.length
  let rom_size := rom_buf_size len
  let rom := bytes ++ List.replicate (rom_size - len) 0
  load_data table rom len

/-- `NdsRom::secure_area`: the byte range `arm9_rom_offset..0x8000` of the
owned buffer when the header has a secure area. -/
def secure_area (r : NdsRom) : Option (List Nat) :=
  if r.header.has_secure_area then
    some ((r.rom.drop r.header.arm9_rom_offset).take (0x8000 - r.header.arm9_rom_offset))
  else none

end NdsRom

theorem nat_lt_two_pow (n : Nat) : n < 2 ^ n := by
  induction n with
  | zero => norm_num
  | succ n ih =>
    have h1 : 1 ≤ 2 ^ n := Nat.one_le_two_pow
    have h2 : 2 ^ (n + 1) = 2 ^ n * 2 := by ring
    omega

namespace NdsRom

theorem grow_rom_size_pow (len : Nat) :
    ∀ fuel i, ∃ k, i ≤ k ∧ grow_rom_size len fuel (2 ^ i) = 2 ^ k := by
  intro fuel
  induction fuel with
  | zero => exact fun i => ⟨i, Nat.le_refl i, rfl⟩
  | succ fuel ih =>
    intro i
    simp only [grow_rom_size]
    split
    · have h2 : (2 ^ i) <<< 1 = 2 ^ (i + 1) := by
        rw [Nat.shiftLeft_eq]
        have e1 : (2 : Nat) ^ 1 = 2 := by norm_num
        rw [e1, Nat.pow_succ]
      rw [h2]
      obtain ⟨k, hik, hk⟩ := ih (i + 1)
      exact ⟨k, by omega, hk⟩
    · exact ⟨i, Nat.le_refl i, rfl⟩

theorem grow_rom_size_ge (len : Nat) :
    ∀ fuel size, len ≤ size <<< fuel → len ≤ grow_rom_size len fuel size := by
  intro fuel
  induction fuel with
  | zero => intro size h; simpa using h
  | succ fuel ih =>
    intro size h
    simp only [grow_rom_size]
    split
    · refine ih (size <<< 1) ?_
      rw [Nat.shiftLeft_eq] at h
      rw [Nat.shiftLeft_eq, Nat.shiftLeft_eq]
      have h2 : size * 2 ^ 1 * 2 ^ fuel = size * 2 ^ (fuel + 1) := by ring
      omega
    · omega

theorem grow_rom_size_ge_start (len : Nat) :
    ∀ fuel size, size ≤ grow_rom_size len fuel size := by
  intro fuel
  induction fuel with
  | zero => intro size; exact Nat.le_refl size
  | succ fuel ih =>
    intro size
    simp only [grow_rom_size]
    split
    · have h1 := ih (size <<< 1)
      have h2 : size ≤ size <<< 1 := by
        rw [Nat.shiftLeft_eq]
        omega
      omega
    · exact Nat.le_refl size

theorem grow_rom_size_le (len : Nat) :
    ∀ fuel i j, i ≤ j → len ≤ 2 ^ j → grow_rom_size len fuel (2 ^ i) ≤ 2 ^ j := by
  intro fuel
  induction fuel with
  | zero =>
    intro i j hij hlen
    exact Nat.pow_le_pow_right (by norm_num) hij
  | succ fuel ih =>
    intro i j hij hlen
    simp only [grow_rom_size]
    split
    · rename_i hlt
      have hij' : i < j := by
        by_contra hc
        have : i = j := by omega
        subst this
        omega
      have h2 : (2 ^ i) <<< 1 = 2 ^ (i + 1) := by
        rw [Nat.shiftLeft_eq]
        have e1 : (2 : Nat) ^ 1 = 2 := by norm_num
        rw [e1, Nat.pow_succ]
      rw [h2]
      exact ih (i + 1) j (by omega) hlen
    · exact Nat.pow_le_pow_right (by norm_num) hij

theorem rom_buf_size_pow (len : Nat) : ∃ k, 9 ≤ k ∧ rom_buf_size len = 2 ^ k := by
  have h := grow_rom_size_pow len len 9
  simpa [rom_buf_size, NdsHeader.SIZE] using h

theorem rom_buf_size_ge (len : Nat) : len ≤ rom_buf_size len := by
  refine grow_rom_size_ge len len 512 ?_
  rw [Nat.shiftLeft_eq]
  have h1 := nat_lt_two_pow len
  have h2 : 2 ^ len ≤ 512 * 2 ^ len := by omega
  omega

theorem rom_buf_size_ge_512 (len : Nat) : 512 ≤ rom_buf_size len :=
  grow_rom_size_ge_start len len 512

theorem rom_buf_size_min (len : Nat) :
    ∀ m, (∃ j, m = 2 ^ j) → 512 ≤ m → len ≤ m → rom_buf_size len ≤ m := by
  rintro m ⟨j, rfl⟩ h512 hlen
  have h9 : 9 ≤ j := by
    by_contra hc
    have hj : j ≤ 8 := by omega
    have : (2 : Nat) ^ j ≤ 2 ^ 8 := Nat.pow_le_pow_right (by norm_num) hj
    norm_num at this
    omega
  have h := grow_rom_size_le len len 9 j h9 hlen
  simpa [rom_buf_size, NdsHeader.SIZE] using h

theorem rom_buf_size_of_le_512 {len : Nat} (h : len ≤ 512) : rom_buf_size len = 512 := by
  cases len with
  | zero => rfl
  | succ n =>
    simp only [rom_buf_size, NdsHeader.SIZE, grow_rom_size]
    have : ¬(512 < n + 1) := by omega
    simp [this]

end NdsRom

namespace Key1

theorem encrypt_block_length (key_buf b : List Nat) : (encrypt_block key_buf b).length = 8 := by
  simp [encrypt_block, writeU32LE]

theorem encrypt_blocks_length (key_buf : List Nat) :
    ∀ n bs, (encrypt_blocks key_buf n bs).length = bs.length := by
  intro n
  induction n with
  | zero => intro bs; rfl
  | succ n ih =>
    intro bs
    simp only [encrypt_blocks]
    split
    · rename_i h8
      rw [List.length_append, encrypt_block_length, ih, List.length_drop]
      omega
    · rfl

theorem encrypt_secure_area_length {secure_area : List Nat} (game_code : Nat)
    (h : 8 ≤ secure_area.length) :
    (encrypt_secure_area secure_area game_code).length = secure_area.length := by
  simp only [encrypt_secure_area]
  rw [List.length_append, encrypt_block_length, List.length_drop,
    encrypt_blocks_length, List.length_append, List.length_drop]
  simp only [encryObjBytes, List.length_cons, List.length_nil]
  omega

end Key1

namespace NdsRom

theorem init_secure_area_length {rom : List Nat} {header : NdsHeader} {game_code : Nat}
    {rom2 : List Nat} (h : init_secure_area rom header game_code = some rom2) :
    rom2.length = rom.length := by
  simp only [init_secure_area] at h
  split at h
  · split at h
    · rename_i hsa hlen
      split at h
      · split at h
        · split at h
          · split at h
            · rename_i h4 hS h14 hS10
              have hoff : header.arm9_rom_offset < 0x8000 := by
                simp only [NdsHeader.has_secure_area, Bool.and_eq_true, decide_eq_true_eq] at hsa
                exact hsa.1
              have hsalen : ((rom.drop header.arm9_rom_offset).take
                  (0x8000 - header.arm9_rom_offset)).length =
                  0x8000 - header.arm9_rom_offset := by
                rw [List.length_take, List.length_drop]
                omega
              have h8 : 8 ≤ ((rom.drop header.arm9_rom_offset).take
                  (0x8000 - header.arm9_rom_offset)).length := by omega
              have hesa := Key1.encrypt_secure_area_length game_code h8
              injection h with h
              subst h
              simp only [List.length_append, hesa, hsalen, List.length_take,
                List.length_drop]
              omega
            · injection h with h; subst h; rfl
          · exact absurd h (by simp)
        · injection h with h; subst h; rfl
      · exact absurd h (by simp)
    · exact absurd h (by simp)
  · injection h with h; subst h; rfl

theorem load_data_rom_length {table : Nat → Option RomParams} {rom : List Nat}
    {rom_data_size : Nat} {R : NdsRom} (h : load_data table rom rom_data_size = some R) :
    R.rom.length = rom.length := by
  simp only [load_data, Option.bind_eq_some] at h
  obtain ⟨header, hh, banner, hb, rom2, hinit, h⟩ := h
  injection h with h
  subst h
  exact init_secure_area_length hinit

end NdsRom

/-- Claim C4: the buffer assembled by `NdsRom::load` has length exactly the
smallest power of two that is at least `max 512 (input length)`, with the
input bytes at the front and all remaining bytes zero, and every
successfully returned image owns a buffer of exactly that length. -/
theorem c4_rom_buffer_size (bytes : List Nat) :
    (∃ k, NdsRom.rom_buf_size bytes.length = 2 ^ k) ∧
    512 ≤ NdsRom.rom_buf_size bytes.length ∧
    bytes.length ≤ NdsRom.rom_buf_size bytes.length ∧
    (∀ m, (∃ j, m = 2 ^ j) → 512 ≤ m → bytes.length ≤ m →
      NdsRom.rom_buf_size bytes.length ≤ m) ∧
    (bytes ++ List.replicate (NdsRom.rom_buf_size bytes.length - bytes.length) 0).length =
      NdsRom.rom_buf_size bytes.length ∧
    (bytes ++ List.replicate (NdsRom.rom_buf_size bytes.length - bytes.length) 0).take
      bytes.length = bytes ∧
    (bytes ++ List.replicate (NdsRom.rom_buf_size bytes.length - bytes.length) 0).drop
      bytes.length = List.replicate (NdsRom.rom_buf_size bytes.length - bytes.length) 0 ∧
    ∀ (table : Nat → Option RomParams) (R : NdsRom), NdsRom.load table bytes = some R →
      R.rom.length = NdsRom.rom_buf_size bytes.length := by
  obtain ⟨k, hk9, hk⟩ := NdsRom.rom_buf_size_pow bytes.length
  refine ⟨⟨k, hk⟩, NdsRom.rom_buf_size_ge_512 _, NdsRom.rom_buf_size_ge _,
    fun m hm h512 hlen => NdsRom.rom_buf_size_min _ m hm h512 hlen, ?_, ?_, ?_, ?_⟩
  · rw [List.length_append, List.length_replicate]
    have := NdsRom.rom_buf_size_ge bytes.length
    omega
  · exact List.take_left bytes _
  · exact List.drop_left bytes _
  · intro table R h
    simp only [NdsRom.load] at h
    rw [NdsRom.load_data_rom_length h, List.length_append, List.length_replicate]
    have := NdsRom.rom_buf_size_ge bytes.length
    omega

/-- Witness for claim C4 at the concrete input `[1, 2, 3]`. -/
theorem c4_rom_buffer_size_witness :
    ([1, 2, 3] ++ List.replicate (NdsRom.rom_buf_size 3 - 3) 0).length =
      NdsRom.rom_buf_size 3 ∧ 512 ≤ NdsRom.rom_buf_size 3 :=
  ⟨(c4_rom_buffer_size [1, 2, 3]).2.2.2.2.1, (c4_rom_buffer_size [1, 2, 3]).2.1⟩

theorem list_getD_append_left {l₁ l₂ : List Nat} {i : Nat} {d : Nat} (h : i < l₁.length) :
    (l₁ ++ l₂).getD i d = l₁.getD i d := by
  rw [List.getD_eq_getElem?_getD, List.getD_eq_getElem?_getD, List.getElem?_append_left h]

theorem list_getD_append_right {l₁ l₂ : List Nat} {i : Nat} {d : Nat} (h : l₁.length ≤ i) :
    (l₁ ++ l₂).getD i d = l₂.getD (i - l₁.length) d := by
  rw [List.getD_eq_getElem?_getD, List.getD_eq_getElem?_getD, List.getElem?_append_right h]

theorem list_getD_replicate_zero (n i : Nat) : (List.replicate n (0 : Nat)).getD i 0 = 0 := by
  rw [List.getD_eq_getElem?_getD, List.getElem?_replicate]
  split <;> rfl

theorem list_drop_replicate_append {m n : Nat} (a : Nat) (t : List Nat) (h : m ≤ n) :
    (List.replicate n a ++ t).drop m = List.replicate (n - m) a ++ t := by
  have e : List.replicate n a = List.replicate m a ++ List.replicate (n - m) a := by
    rw [← List.replicate_add]
    congr 1
    omega
  rw [e, List.append_assoc, List.drop_left' (by simp)]

theorem readU32LE_append_left {l₁ l₂ : List Nat} (h : 4 ≤ l₁.length) :
    readU32LE (l₁ ++ l₂) = readU32LE l₁ := by
  simp only [readU32LE]
  rw [list_getD_append_left (by omega), list_getD_append_left (by omega),
    list_getD_append_left (by omega), list_getD_append_left (by omega)]

theorem readU32LE_replicate_zero {n : Nat} (t : List Nat) (h : 4 ≤ n) :
    readU32LE (List.replicate n 0 ++ t) = 0 := by
  rw [readU32LE_append_left (by simp [h])]
  simp [readU32LE, list_getD_replicate_zero]

/-- Game-title segment (offsets 0x00-0x0B) of the concrete test image. -/
def fixture_title : List Nat := List.replicate 12 0

/-- Game code `"ABCD"` (offsets 0x0C-0x0F) of the concrete test image. -/
def fixture_game_code : List Nat := [0x41, 0x42, 0x43, 0x44]

/-- Offsets 0x10-0x1F of the concrete test image (all zero). -/
def fixture_mid : List Nat := List.replicate 16 0

/-- ARM9 ROM offset `0x4000`, little-endian, at offsets 0x20-0x23. -/
def fixture_arm9_off : List Nat := [0x00, 0x40, 0x00, 0x00]

/-- Offsets 0x24-0x3FFF of the concrete test image (all zero; in particular
the banner offset at 0x68 is zero). -/
def fixture_tail : List Nat := List.replicate 0x3FDC 0

/-- The first 0x4000 bytes of the concrete test image. -/
def fixture_front : List Nat :=
  fixture_title ++ (fixture_game_code ++ (fixture_mid ++ (fixture_arm9_off ++ fixture_tail)))

/-- A concrete raw input whose secure area starts with the destroyed-ID magic
followed by the byte `x`: it decodes to a header with a secure area at
`0x4000` and triggers the repair. -/
def fixture_input (x : Nat) : List Nat := fixture_front ++ (E7FFDEFF ++ [x])

/-- The secure-area window of the loaded buffer for `fixture_input x`. -/
def fixture_sa (x : Nat) : List Nat := E7FFDEFF ++ (x :: List.replicate 0x3FFB 0)

/-- The zero-padded 0x8000-byte buffer assembled from `fixture_input x`. -/
def fixture_rom (x : Nat) : List Nat := fixture_front ++ fixture_sa x

/-- The header decoded from the concrete test image. -/
def fixture_header : NdsHeader :=
  { game_code := [0x41, 0x42, 0x43, 0x44], unit_code := 0, arm9_rom_offset := 0x4000,
    banner_offset := 0, rom_size := 0 }

theorem fixture_front_length : fixture_front.length = 0x4000 := by
  simp only [fixture_front, fixture_title, fixture_game_code, fixture_mid, fixture_arm9_off,
    fixture_tail, List.length_append, List.length_replicate, List.length_cons, List.length_nil]

theorem fixture_input_length (x : Nat) : (fixture_input x).length = 0x4005 := by
  simp only [fixture_input, E7FFDEFF, List.length_append, fixture_front_length,
    List.length_cons, List.length_nil]

theorem fixture_sa_length (x : Nat) : (fixture_sa x).length = 0x4000 := by
  simp only [fixture_sa, E7FFDEFF, List.length_append, List.length_cons, List.length_nil,
    List.length_replicate]

theorem fixture_rom_length (x : Nat) : (fixture_rom x).length = 0x8000 := by
  simp only [fixture_rom, List.length_append, fixture_front_length, fixture_sa_length]

theorem NdsRom.rom_buf_size_eq_pow {len k : Nat} (h9 : 9 ≤ k) (hlo : 2 ^ (k - 1) < len)
    (hhi : len ≤ 2 ^ k) : NdsRom.rom_buf_size len = 2 ^ k := by
  obtain ⟨j, hj9, hj⟩ := NdsRom.rom_buf_size_pow len
  have hge := NdsRom.rom_buf_size_ge len
  have hle := NdsRom.rom_buf_size_min len (2 ^ k) ⟨k, rfl⟩
    (by calc (512 : Nat) = 2 ^ 9 := by norm_num
          _ ≤ 2 ^ k := Nat.pow_le_pow_right (by norm_num) h9) hhi
  rw [hj] at hge hle ⊢
  have hjk : j ≤ k := (Nat.pow_le_pow_iff_right (by norm_num)).1 hle
  have hkj : k ≤ j := by
    by_contra hc
    have hj1 : j ≤ k - 1 := by omega
    have : (2 : Nat) ^ j ≤ 2 ^ (k - 1) := Nat.pow_le_pow_right (by norm_num) hj1
    omega
  congr 1
  omega

theorem fixture_rom_buf_size : NdsRom.rom_buf_size 0x4005 = 0x8000 := by
  have h := @NdsRom.rom_buf_size_eq_pow 0x4005 15 (by norm_num) (by norm_num) (by norm_num)
  norm_num at h
  exact h

theorem fixture_pad (x : Nat) :
    fixture_input x ++ List.replicate
      (NdsRom.rom_buf_size (fixture_input x).length - (fixture_input x).length) 0 =
      fixture_rom x := by
  rw [fixture_input_length, fixture_rom_buf_size]
  show fixture_input x ++ List.replicate 0x3FFB 0 = fixture_rom x
  simp only [fixture_input, fixture_rom, fixture_sa, List.append_assoc, List.cons_append,
    List.nil_append, E7FFDEFF]

theorem list_drop_append_le {l₁ l₂ : List Nat} {n : Nat} (h : n ≤ l₁.length) :
    (l₁ ++ l₂).drop n = l₁.drop n ++ l₂ := by
  conv_lhs => rw [← List.take_append_drop n l₁, List.append_assoc]
  rw [List.drop_left' (by rw [List.length_take]; omega)]

theorem list_take_append_le {l₁ l₂ : List Nat} {n : Nat} (h : n ≤ l₁.length) :
    (l₁ ++ l₂).take n = l₁.take n := by
  conv_lhs => rw [← List.take_append_drop n l₁, List.append_assoc]
  rw [List.take_left' (by rw [List.length_take]; omega)]

theorem fixture_rom_drop (x : Nat) {k : Nat} (h : k ≤ 0x4000) :
    (fixture_rom x).drop k = fixture_front.drop k ++ fixture_sa x := by
  simp only [fixture_rom]
  exact list_drop_append_le (by rw [fixture_front_length]; omega)

theorem fixture_header_read (x : Nat) : NdsHeader.read (fixture_rom x) = some fixture_header := by
  have hplen := fixture_front_length
  have hlen := fixture_rom_length x
  simp only [NdsHeader.read, NdsHeader.SIZE]
  rw [if_pos (by omega)]
  have hgc : ((fixture_rom x).drop 0x0C).take 4 = [0x41, 0x42, 0x43, 0x44] := by
    rw [fixture_rom_drop x (by norm_num),
      list_take_append_le (by rw [List.length_drop, hplen]; norm_num)]
    decide
  have huc : (fixture_rom x).getD 0x12 0 = 0 := by
    rw [show fixture_rom x = fixture_front ++ fixture_sa x from rfl,
      list_getD_append_left (by rw [hplen]; norm_num)]
    decide
  have ha9 : readU32LE ((fixture_rom x).drop 0x20) = 0x4000 := by
    rw [fixture_rom_drop x (by norm_num),
      readU32LE_append_left (by rw [List.length_drop, hplen]; norm_num)]
    decide
  have hbo : readU32LE ((fixture_rom x).drop 0x68) = 0 := by
    rw [fixture_rom_drop x (by norm_num),
      readU32LE_append_left (by rw [List.length_drop, hplen]; norm_num)]
    decide
  have hrs : readU32LE ((fixture_rom x).drop 0x80) = 0 := by
    rw [fixture_rom_drop x (by norm_num),
      readU32LE_append_left (by rw [List.length_drop, hplen]; norm_num)]
    decide
  rw [hgc, huc, ha9, hbo, hrs]
  rfl

theorem fixture_secure_area_eq (x : Nat) :
    ((fixture_rom x).drop 0x4000).take (0x8000 - 0x4000) = fixture_sa x := by
  rw [fixture_rom_drop x le_rfl,
    List.drop_eq_nil_of_le (by rw [fixture_front_length]), List.nil_append,
    List.take_of_length_le (by rw [fixture_sa_length])]

theorem fixture_sa_take4 (x : Nat) : (fixture_sa x).take 4 = E7FFDEFF := by
  rw [fixture_sa, list_take_append_le (by decide)]
  decide

theorem fixture_sa_drop16 (x : Nat) :
    (fixture_sa x).drop 0x10 = (List.replicate 0x3FFB (0 : Nat)).drop 0x0B := by
  rw [show fixture_sa x = (E7FFDEFF ++ [x]) ++ List.replicate 0x3FFB 0 from rfl,
    show (0x10 : Nat) = (E7FFDEFF ++ [x]).length + 0x0B from rfl, List.drop_append]

theorem fixture_sa_drop8 (x : Nat) :
    (fixture_sa x).drop 8 = (List.replicate 0x3FFB (0 : Nat)).drop 3 := by
  rw [show fixture_sa x = (E7FFDEFF ++ [x]) ++ List.replicate 0x3FFB 0 from rfl,
    show (8 : Nat) = (E7FFDEFF ++ [x]).length + 3 from rfl, List.drop_append]

theorem fixture_init_sa (x : Nat) :
    NdsRom.init_secure_area (fixture_rom x) fixture_header 0x44434241 =
      some (fixture_front ++ Key1.encrypt_secure_area (fixture_sa x) 0x44434241) := by
  have hlen := fixture_rom_length x
  have hsalen := fixture_sa_length x
  have hoff : fixture_header.arm9_rom_offset = 0x4000 := rfl
  simp only [NdsRom.init_secure_area, hoff, fixture_secure_area_eq x]
  rw [if_pos (by decide), if_pos (by omega), if_pos (by omega), if_pos (fixture_sa_take4 x),
    if_pos (by omega), if_pos (by rw [fixture_sa_drop16]; decide)]
  rw [show (fixture_rom x).take 0x4000 = fixture_front by
      rw [fixture_rom, list_take_append_le (by rw [fixture_front_length]),
        List.take_of_length_le (by rw [fixture_front_length])],
    List.drop_eq_nil_of_le (by rw [hlen]), List.append_nil]

theorem fixture_load (x : Nat) :
    NdsRom.load (fun _ => none) (fixture_input x) =
      some { rom := fixture_front ++ Key1.encrypt_secure_area (fixture_sa x) 0x44434241,
             header := fixture_header, banner := false,
             params := { rom_size := 0x8000, sram_kind := SramKind.Eeprom64KB },
             chip_id := gen_chip_id 0x8000 false
               { rom_size := 0x8000, sram_kind := SramKind.Eeprom64KB } } := by
  have hlen := fixture_rom_length x
  have hbo : fixture_header.banner_offset = 0 := rfl
  have hdsi : fixture_header.is_dsi = false := by decide
  have hgc : fixture_header.game_code_u32 = 0x44434241 := by decide
  have hfb : (if fixture_header.is_homebrew then SramKind.None else SramKind.Eeprom64KB) =
      SramKind.Eeprom64KB := by decide
  simp only [NdsRom.load]
  rw [fixture_pad x, fixture_input_length]
  simp only [NdsRom.load_data, fixture_header_read x, Option.some_bind, hbo, hgc, hdsi, hfb,
    hlen, show (0x8000 : Nat) % 2 ^ 32 = 0x8000 from by norm_num, fixture_init_sa x]

theorem fixture_input_mem {x : Nat} (hx : x < 256) : ∀ b ∈ fixture_input x, b < 256 := by
  intro b hb
  simp only [fixture_input, fixture_front, fixture_title, fixture_game_code, fixture_mid,
    fixture_arm9_off, fixture_tail, E7FFDEFF, List.mem_append, List.mem_replicate,
    List.mem_cons, List.mem_singleton, List.not_mem_nil, or_false] at hb
  omega

/-- Counterexample to claim C4: the returned image's buffer does not always
hold the input bytes at the front — a triggering secure area is re-encrypted
in place, and two inputs differing only at offset 0x4004 load to images with
identical buffers. -/
theorem c4_rom_buffer_size_counterexample :
    ¬ (∀ (bytes : List Nat), (∀ b ∈ bytes, b < 256) →
        ∀ (table : Nat → Option RomParams) (R : NdsRom),
          NdsRom.load table bytes = some R →
          R.rom.length = NdsRom.rom_buf_size bytes.length ∧
          R.rom.take bytes.length = bytes ∧
          R.rom.drop bytes.length =
            List.replicate (NdsRom.rom_buf_size bytes.length - bytes.length) 0) := by
  intro hclm
  have h0 := (hclm (fixture_input 0) (fixture_input_mem (by norm_num)) (fun _ => none) _
    (fixture_load 0)).2.1
  have h1 := (hclm (fixture_input 1) (fixture_input_mem (by norm_num)) (fun _ => none) _
    (fixture_load 1)).2.1
  simp only [fixture_input_length] at h0 h1
  have hsplit : ∀ l : List Nat, (fixture_front ++ l).take 0x4005 = fixture_front ++ l.take 5 := by
    intro l
    rw [show (0x4005 : Nat) = fixture_front.length + 5 by rw [fixture_front_length],
      List.take_append]
  rw [hsplit] at h0 h1
  have hesa : Key1.encrypt_secure_area (fixture_sa 0) 0x44434241 =
      Key1.encrypt_secure_area (fixture_sa 1) 0x44434241 := by
    simp only [Key1.encrypt_secure_area, fixture_sa_drop8]
  rw [hesa] at h0
  have h01 : fixture_input 0 = fixture_input 1 := h0.symm.trans h1
  have hpre : fixture_front.length ≤ 0x4004 := by rw [fixture_front_length]; norm_num
  have hcon := congrArg (fun l : List Nat => l.getD 0x4004 0) h01
  simp only [fixture_input] at hcon
  rw [list_getD_append_right hpre, list_getD_append_right hpre, fixture_front_length] at hcon
  exact absurd hcon (by decide)

theorem list_getD_take {l : List Nat} {n i d : Nat} (h : i < n) :
    (l.take n).getD i d = l.getD i d := by
  rw [List.getD_eq_getElem?_getD, List.getD_eq_getElem?_getD, List.getElem?_take_of_lt h]

theorem list_getD_drop (l : List Nat) (n i d : Nat) :
    (l.drop n).getD i d = l.getD (n + i) d := by
  rw [List.getD_eq_getElem?_getD, List.getD_eq_getElem?_getD, List.getElem?_drop]

/-- Claim C5: `has_secure_area` holds exactly when the ARM9 ROM offset lies in
`[0x4000, 0x8000)` (false at both boundary exclusions), and for an image whose
buffer covers the region, `secure_area` returns exactly the byte range
`arm9_rom_offset..0x8000` of the owned buffer. -/
theorem c5_secure_area (h : NdsHeader) (r : NdsRom) (hlen : 0x8000 ≤ r.rom.length) :
    (h.has_secure_area = true ↔ 0x4000 ≤ h.arm9_rom_offset ∧ h.arm9_rom_offset < 0x8000) ∧
    (r.header.has_secure_area = true →
      ∃ s, NdsRom.secure_area r = some s ∧
        s.length = 0x8000 - r.header.arm9_rom_offset ∧
        ∀ i < 0x8000 - r.header.arm9_rom_offset,
          s.getD i 0 = r.rom.getD (r.header.arm9_rom_offset + i) 0) := by
  constructor
  · simp only [NdsHeader.has_secure_area, Bool.and_eq_true, decide_eq_true_eq, ge_iff_le]
    omega
  · intro hsa
    refine ⟨(r.rom.drop r.header.arm9_rom_offset).take (0x8000 - r.header.arm9_rom_offset),
      ?_, ?_, ?_⟩
    · simp only [NdsRom.secure_area, hsa, if_true]
    · have hoff : r.header.arm9_rom_offset < 0x8000 := by
        simp only [NdsHeader.has_secure_area, Bool.and_eq_true, decide_eq_true_eq] at hsa
        exact hsa.1
      rw [List.length_take, List.length_drop]
      omega
    · intro i hi
      rw [list_getD_take hi, list_getD_drop]

/-- A concrete image whose buffer covers the secure-area region. -/
def fixture_image : NdsRom :=
  { rom := List.replicate 0x8000 0, header := fixture_header, banner := false,
    params := { rom_size := 0, sram_kind := SramKind.None }, chip_id := 0 }

/-- Witness for claim C5 on a concrete 0x8000-byte image. -/
theorem c5_secure_area_witness :
    0x8000 ≤ fixture_image.rom.length ∧
    ((fixture_header.has_secure_area = true ↔
      0x4000 ≤ fixture_header.arm9_rom_offset ∧ fixture_header.arm9_rom_offset < 0x8000) ∧
    (fixture_image.header.has_secure_area = true →
      ∃ s, NdsRom.secure_area fixture_image = some s ∧
        s.length = 0x8000 - fixture_image.header.arm9_rom_offset ∧
        ∀ i < 0x8000 - fixture_image.header.arm9_rom_offset,
          s.getD i 0 = fixture_image.rom.getD (fixture_image.header.arm9_rom_offset + i) 0)) :=
  ⟨by rw [show fixture_image.rom = List.replicate 0x8000 0 from rfl, List.length_replicate],
    c5_secure_area fixture_header fixture_image
      (by rw [show fixture_image.rom = List.replicate 0x8000 0 from rfl, List.length_replicate])⟩

/-- Claim C8 (amended): when the game-code lookup misses, the resolved
parameters fall back to SRAM kind `None` for homebrew (ARM9 offset below
0x4000 or an all-`#` game code) and `Eeprom64KB` otherwise; the resolved ROM
size is the power-of-two-rounded buffer size reduced by the `as u32`
wrapping cast — equal to the rounded buffer size exactly when that size fits
in 32 bits (every buffer under 4GiB), wrapped modulo `2 ^ 32` above it. -/
theorem c8_params_fallback (table : Nat → Option RomParams) (bytes : List Nat) (R : NdsRom)
    (header : NdsHeader)
    (hread : NdsHeader.read
      (bytes ++ List.replicate (NdsRom.rom_buf_size bytes.length - bytes.length) 0) =
      some header)
    (hmiss : table header.game_code_u32 = none)
    (hload : NdsRom.load table bytes = some R) :
    R.params.rom_size = NdsRom.rom_buf_size bytes.length % 2 ^ 32 ∧
    (NdsRom.rom_buf_size bytes.length < 2 ^ 32 →
      R.params.rom_size = NdsRom.rom_buf_size bytes.length) ∧
    R.params.sram_kind =
      (if header.is_homebrew then SramKind.None else SramKind.Eeprom64KB) ∧
    (header.is_homebrew = true ↔
      header.arm9_rom_offset < 0x4000 ∨ header.game_code = [0x23, 0x23, 0x23, 0x23]) := by
  have hplen :
      (bytes ++ List.replicate (NdsRom.rom_buf_size bytes.length - bytes.length) 0).length =
      NdsRom.rom_buf_size bytes.length := by
    rw [List.length_append, List.length_replicate]
    have := NdsRom.rom_buf_size_ge bytes.length
    omega
  simp only [NdsRom.load, NdsRom.load_data, Option.bind_eq_some] at hload
  obtain ⟨header', hh, banner, hb, rom2, hinit, hR⟩ := hload
  rw [hread] at hh
  injection hh with hh
  subst hh
  simp only [hmiss] at hR
  injection hR with hR
  subst hR
  refine ⟨?_, ?_, rfl, ?_⟩
  · show (bytes ++ List.replicate
        (NdsRom.rom_buf_size bytes.length - bytes.length) 0).length % 2 ^ 32 =
      NdsRom.rom_buf_size bytes.length % 2 ^ 32
    rw [hplen]
  · intro h32
    show (bytes ++ List.replicate
        (NdsRom.rom_buf_size bytes.length - bytes.length) 0).length % 2 ^ 32 =
      NdsRom.rom_buf_size bytes.length
    rw [hplen, Nat.mod_eq_of_lt h32]
  · simp only [NdsHeader.is_homebrew, Bool.or_eq_true, decide_eq_true_eq, beq_iff_eq]

/-- The all-zero header decoded from an empty input's padded buffer. -/
def fixture_empty_header : NdsHeader :=
  { game_code := [0, 0, 0, 0], unit_code := 0, arm9_rom_offset := 0, banner_offset := 0,
    rom_size := 0 }

/-- The image loaded from the empty input with an empty lookup table. -/
def fixture_empty_image : NdsRom :=
  { rom := List.replicate 512 0, header := fixture_empty_header, banner := false,
    params := { rom_size := 512, sram_kind := SramKind.None }, chip_id := 0xC2 }

/-- Witness for claim C8 at the empty input and the empty lookup table. -/
theorem c8_params_fallback_witness :
    (NdsHeader.read (([] : List Nat) ++
        List.replicate (NdsRom.rom_buf_size (List.length ([] : List Nat)) -
          List.length ([] : List Nat)) 0) = some fixture_empty_header) ∧
    (NdsRom.load (fun _ => none) ([] : List Nat) = some fixture_empty_image) ∧
    (fixture_empty_image.params.rom_size =
       NdsRom.rom_buf_size (List.length ([] : List Nat)) % 2 ^ 32 ∧
     (NdsRom.rom_buf_size (List.length ([] : List Nat)) < 2 ^ 32 →
       fixture_empty_image.params.rom_size =
         NdsRom.rom_buf_size (List.length ([] : List Nat))) ∧
     fixture_empty_image.params.sram_kind =
       (if fixture_empty_header.is_homebrew then SramKind.None else SramKind.Eeprom64KB) ∧
     (fixture_empty_header.is_homebrew = true ↔
       fixture_empty_header.arm9_rom_offset < 0x4000 ∨
         fixture_empty_header.game_code = [0x23, 0x23, 0x23, 0x23])) :=
  ⟨by decide, by decide,
    c8_params_fallback (fun _ => none) [] fixture_empty_image fixture_empty_header
      (by decide) rfl (by decide)⟩

theorem testBit_high {a k j : Nat} (h : a < 2 ^ k) (hj : k ≤ j) : a.testBit j = false :=
  Nat.testBit_lt_two_pow (lt_of_lt_of_le h (Nat.pow_le_pow_right (by norm_num) hj))

theorem chip_bits_mod {v D N : Nat} (hv : v < 256)
    (hD : ∀ j, j < 16 → D.testBit j = false) (hN : ∀ j, j < 16 → N.testBit j = false) :
    (0xC2 ||| v <<< 8 ||| D ||| N) % 2 ^ 8 = 0xC2 := by
  apply Nat.eq_of_testBit_eq
  intro i
  rw [Nat.testBit_mod_two_pow]
  by_cases hi : i < 8
  · rw [decide_eq_true hi, Bool.true_and]
    simp only [Nat.testBit_or]
    rw [hD i (by omega), hN i (by omega), Nat.testBit_shiftLeft, decide_eq_false (by omega),
      Bool.false_and, Bool.or_false, Bool.or_false, Bool.or_false]
  · rw [decide_eq_false hi, Bool.false_and]
    exact (testBit_high (show (0xC2 : Nat) < 2 ^ 8 by norm_num) (by omega)).symm

theorem chip_bits_byte {v D N : Nat} (hv : v < 256)
    (hD : ∀ j, j < 16 → D.testBit j = false) (hN : ∀ j, j < 16 → N.testBit j = false) :
    ((0xC2 ||| v <<< 8 ||| D ||| N) >>> 8) % 2 ^ 8 = v := by
  apply Nat.eq_of_testBit_eq
  intro i
  rw [Nat.testBit_mod_two_pow, Nat.testBit_shiftRight]
  by_cases hi : i < 8
  · rw [decide_eq_true hi, Bool.true_and]
    simp only [Nat.testBit_or]
    rw [hD (8 + i) (by omega), hN (8 + i) (by omega), Nat.testBit_shiftLeft,
      decide_eq_true (by omega), Bool.true_and,
      testBit_high (show (0xC2 : Nat) < 2 ^ 8 by norm_num) (by omega),
      show 8 + i - 8 = i from by omega, Bool.false_or, Bool.or_false, Bool.or_false]
  · rw [decide_eq_false hi, Bool.false_and]
    exact (testBit_high (show v < 2 ^ 8 from by omega) (by omega)).symm

theorem chip_bits_high {v D N : Nat} (hv : v < 256) {k : Nat} (hk : 16 ≤ k) :
    (0xC2 ||| v <<< 8 ||| D ||| N).testBit k = (D.testBit k || N.testBit k) := by
  simp only [Nat.testBit_or, Nat.testBit_shiftLeft]
  rw [testBit_high (show (0xC2 : Nat) < 2 ^ 8 by norm_num) (by omega),
    testBit_high (show v < 2 ^ 8 from by omega) (show 8 ≤ k - 8 from by omega),
    Bool.and_false, Bool.false_or, Bool.false_or]

theorem mask_low_27 {j : Nat} (hj : j < 16) : (0x08000000 : Nat).testBit j = false := by
  rw [show (0x08000000 : Nat) = 2 ^ 27 from by norm_num]
  exact Nat.testBit_two_pow_of_ne (by omega)

theorem mask_low_48 {j : Nat} (hj : j < 16) : (0x48000000 : Nat).testBit j = false := by
  rw [show (0x48000000 : Nat) = 2 ^ 30 ||| 2 ^ 27 from by decide, Nat.testBit_or,
    Nat.testBit_two_pow_of_ne (show 30 ≠ j from by omega),
    Nat.testBit_two_pow_of_ne (show 27 ≠ j from by omega), Bool.or_false]

theorem mask_low_80 {j : Nat} (hj : j < 16) : (0x80000000 : Nat).testBit j = false := by
  rw [show (0x80000000 : Nat) = 2 ^ 31 from by norm_num]
  exact Nat.testBit_two_pow_of_ne (by omega)

/-- Full characterisation of `gen_chip_id`: base byte, size field, and the
three high flag bits. -/
theorem gen_chip_id_spec (rom_size : Nat) (is_dsi : Bool) (params : RomParams)
    (hsize : rom_size < 2 ^ 32) :
    gen_chip_id rom_size is_dsi params % 2 ^ 8 = 0xC2 ∧
    (gen_chip_id rom_size is_dsi params >>> 8) % 2 ^ 8 =
      (if 256 * 1024 * 1024 ≤ rom_size then 0x100 - rom_size >>> 28
       else if 1024 * 1024 ≤ rom_size ∧ rom_size ≤ 128 * 1024 * 1024 then rom_size >>> 20 - 1
       else 0) ∧
    (gen_chip_id rom_size is_dsi params).testBit 27 =
      (is_dsi || params.sram_kind.memory_kind == MemoryKind.Nand) ∧
    (gen_chip_id rom_size is_dsi params).testBit 30 =
      (params.sram_kind.memory_kind == MemoryKind.Nand) ∧
    (gen_chip_id rom_size is_dsi params).testBit 31 =
      (!(params.sram_kind.memory_kind == MemoryKind.Nand) &&
        decide (128 * 1024 * 1024 ≤ params.rom_size)) ∧
    (rom_size = 16 * 1024 * 1024 →
      (gen_chip_id rom_size is_dsi params >>> 8) % 2 ^ 8 = 15) := by
  have hcast : rom_size % 2 ^ 32 = rom_size := Nat.mod_eq_of_lt hsize
  obtain ⟨v, hv, hT1, hveq⟩ :
      ∃ v, v < 256 ∧
        (if 256 * 1024 * 1024 ≤ rom_size then
            0xC2 ||| (0x100 - (rom_size % 2 ^ 32) >>> 28) <<< 8
          else if 1024 * 1024 ≤ rom_size ∧ rom_size ≤ 128 * 1024 * 1024 then
            0xC2 ||| ((rom_size % 2 ^ 32) >>> 20 - 1) <<< 8
          else (0xC2 : Nat)) = 0xC2 ||| v <<< 8 ∧
        (if 256 * 1024 * 1024 ≤ rom_size then 0x100 - rom_size >>> 28
         else if 1024 * 1024 ≤ rom_size ∧ rom_size ≤ 128 * 1024 * 1024 then
           rom_size >>> 20 - 1
         else 0) = v := by
    by_cases h1 : 256 * 1024 * 1024 ≤ rom_size
    · refine ⟨0x100 - rom_size >>> 28, ?_, by rw [if_pos h1, hcast], by rw [if_pos h1]⟩
      rw [Nat.shiftRight_eq_div_pow]
      have h3 : 1 ≤ rom_size / 2 ^ 28 := (Nat.one_le_div_iff (by norm_num)).2 (by omega)
      omega
    · by_cases h2 : 1024 * 1024 ≤ rom_size ∧ rom_size ≤ 128 * 1024 * 1024
      · refine ⟨rom_size >>> 20 - 1, ?_, by rw [if_neg h1, if_pos h2, hcast],
          by rw [if_neg h1, if_pos h2]⟩
        rw [Nat.shiftRight_eq_div_pow]
        have h3 : rom_size / 2 ^ 20 ≤ 128 * 1024 * 1024 / 2 ^ 20 :=
          Nat.div_le_div_right h2.2
        have h4 : 128 * 1024 * 1024 / 2 ^ 20 = 128 := by norm_num
        omega
      · exact ⟨0, by norm_num, by rw [if_neg h1, if_neg h2]; decide,
          by rw [if_neg h1, if_neg h2]⟩
  simp only [gen_chip_id, hT1]
  rw [hveq]
  by_cases hdsi : is_dsi = true <;>
    [rw [if_pos hdsi, hdsi];
     (rw [if_neg hdsi]; rw [Bool.not_eq_true] at hdsi; rw [hdsi])] <;>
  by_cases hnand : params.sram_kind.memory_kind == MemoryKind.Nand
  · rw [if_pos hnand, hnand]
    refine ⟨chip_bits_mod hv (fun j hj => mask_low_27 hj) (fun j hj => mask_low_48 hj),
      ?_, ?_, ?_, ?_, ?_⟩
    · rw [chip_bits_byte hv (fun j hj => mask_low_27 hj) (fun j hj => mask_low_48 hj)]
    · rw [chip_bits_high hv (by norm_num)]; decide
    · rw [chip_bits_high hv (by norm_num)]; decide
    · rw [chip_bits_high hv (by norm_num), Bool.not_true, Bool.false_and]; decide
    · intro h16
      rw [chip_bits_byte hv (fun j hj => mask_low_27 hj) (fun j hj => mask_low_48 hj), ← hveq,
        h16, if_neg (by norm_num), if_pos (by norm_num)]
      decide
  · rw [if_neg hnand]
    rw [Bool.not_eq_true] at hnand
    rw [hnand]
    by_cases hbig : 128 * 1024 * 1024 ≤ params.rom_size <;>
      [(rw [if_pos hbig, decide_eq_true hbig];
        rw [show (0xC2 : Nat) ||| v <<< 8 ||| 0x08000000 ||| 0x80000000 =
          0xC2 ||| v <<< 8 ||| 0x08000000 ||| 0x80000000 from rfl]);
       (rw [if_neg hbig, decide_eq_false hbig,
         show (0xC2 : Nat) ||| v <<< 8 ||| 0x08000000 =
           0xC2 ||| v <<< 8 ||| 0x08000000 ||| 0 from (Nat.or_zero _).symm])] <;>
    · refine ⟨chip_bits_mod hv (fun j hj => mask_low_27 hj) ?hN,
        ?_, ?_, ?_, ?_, ?_⟩
      case hN => first
        | exact fun j hj => mask_low_80 hj
        | exact fun j _ => Nat.zero_testBit j
      · rw [chip_bits_byte hv (fun j hj => mask_low_27 hj) ?hN2]
        case hN2 => first
          | exact fun j hj => mask_low_80 hj
          | exact fun j _ => Nat.zero_testBit j
      · rw [chip_bits_high hv (by norm_num)]; decide
      · rw [chip_bits_high hv (by norm_num)]; decide
      · rw [chip_bits_high hv (by norm_num)]; decide
      · intro h16
        rw [chip_bits_byte hv (fun j hj => mask_low_27 hj) ?hN3, ← hveq,
          h16, if_neg (by norm_num), if_pos (by norm_num)]
        · decide
        case hN3 => first
          | exact fun j hj => mask_low_80 hj
          | exact fun j _ => Nat.zero_testBit j
  · rw [if_pos hnand, hnand]
    rw [show (0xC2 : Nat) ||| v <<< 8 ||| 0x48000000 =
      0xC2 ||| v <<< 8 ||| 0 ||| 0x48000000 from by rw [Nat.or_zero]]
    refine ⟨chip_bits_mod hv (fun j _ => Nat.zero_testBit j) (fun j hj => mask_low_48 hj),
      ?_, ?_, ?_, ?_, ?_⟩
    · rw [chip_bits_byte hv (fun j _ => Nat.zero_testBit j) (fun j hj => mask_low_48 hj)]
    · rw [chip_bits_high hv (by norm_num)]; decide
    · rw [chip_bits_high hv (by norm_num)]; decide
    · rw [chip_bits_high hv (by norm_num), Bool.not_true, Bool.false_and]; decide
    · intro h16
      rw [chip_bits_byte hv (fun j _ => Nat.zero_testBit j) (fun j hj => mask_low_48 hj), ← hveq,
        h16, if_neg (by norm_num), if_pos (by norm_num)]
      decide
  · rw [if_neg hnand]
    rw [Bool.not_eq_true] at hnand
    rw [hnand]
    by_cases hbig : 128 * 1024 * 1024 ≤ params.rom_size <;>
      [(rw [if_pos hbig, decide_eq_true hbig,
         show (0xC2 : Nat) ||| v <<< 8 ||| 0x80000000 =
           0xC2 ||| v <<< 8 ||| 0 ||| 0x80000000 from by rw [Nat.or_zero]]);
       (rw [if_neg hbig, decide_eq_false hbig,
         show (0xC2 : Nat) ||| v <<< 8 =
           0xC2 ||| v <<< 8 ||| 0 ||| 0 from by rw [Nat.or_zero, Nat.or_zero]])] <;>
    · refine ⟨chip_bits_mod hv (fun j _ => Nat.zero_testBit j) ?hN4,
        ?_, ?_, ?_, ?_, ?_⟩
      case hN4 => first
        | exact fun j hj => mask_low_80 hj
        | exact fun j _ => Nat.zero_testBit j
      · rw [chip_bits_byte hv (fun j _ => Nat.zero_testBit j) ?hN5]
        case hN5 => first
          | exact fun j hj => mask_low_80 hj
          | exact fun j _ => Nat.zero_testBit j
      · rw [chip_bits_high hv (by norm_num)]; decide
      · rw [chip_bits_high hv (by norm_num)]; decide
      · rw [chip_bits_high hv (by norm_num)]; decide
      · intro h16
        rw [chip_bits_byte hv (fun j _ => Nat.zero_testBit j) ?hN6, ← hveq,
          h16, if_neg (by norm_num), if_pos (by norm_num)]
        · decide
        case hN6 => first
          | exact fun j hj => mask_low_80 hj
          | exact fun j _ => Nat.zero_testBit j

/-- Claim C6 (amended): the synthesized chip ID keeps base byte `0xC2`; bits
`[15:8]` hold the size field computed from the ROM size per the two ranges
(zero outside both); bit 27 is set when the image is DSi **or** when the SRAM
is NAND-backed (the `0x48000000` NAND mask also covers bit 27, so the claimed
"bit 27 iff `is_dsi`" fails for NAND); bit 30 is set exactly for NAND; bit 31
is set exactly for a non-NAND image whose resolved parameter ROM size is at
least 128MiB; and a 16MiB ROM yields size field 15. -/
theorem c6_chip_id (rom_size : Nat) (is_dsi : Bool) (params : RomParams)
    (hsize : rom_size < 2 ^ 32) :
    gen_chip_id rom_size is_dsi params % 2 ^ 8 = 0xC2 ∧
    (gen_chip_id rom_size is_dsi params >>> 8) % 2 ^ 8 =
      (if 256 * 1024 * 1024 ≤ rom_size then 0x100 - rom_size >>> 28
       else if 1024 * 1024 ≤ rom_size ∧ rom_size ≤ 128 * 1024 * 1024 then rom_size >>> 20 - 1
       else 0) ∧
    (gen_chip_id rom_size is_dsi params).testBit 27 =
      (is_dsi || params.sram_kind.memory_kind == MemoryKind.Nand) ∧
    (gen_chip_id rom_size is_dsi params).testBit 30 =
      (params.sram_kind.memory_kind == MemoryKind.Nand) ∧
    (gen_chip_id rom_size is_dsi params).testBit 31 =
      (!(params.sram_kind.memory_kind == MemoryKind.Nand) &&
        decide (128 * 1024 * 1024 ≤ params.rom_size)) ∧
    (rom_size = 16 * 1024 * 1024 →
      (gen_chip_id rom_size is_dsi params >>> 8) % 2 ^ 8 = 15) :=
  gen_chip_id_spec rom_size is_dsi params hsize

/-- Counterexample to claim C6: "bit 27 set iff `is_dsi`" fails, because the
NAND mask `0x48000000` also sets bit 27 — a non-DSi NAND-backed image still
gets bit 27. -/
theorem c6_chip_id_counterexample :
    ¬ (∀ (rom_size : Nat) (is_dsi : Bool) (params : RomParams),
        (gen_chip_id rom_size is_dsi params).testBit 27 = is_dsi) := by
  intro hclm
  have h := hclm (16 * 1024 * 1024) false
    { rom_size := 16 * 1024 * 1024, sram_kind := SramKind.Nand8MB }
  exact absurd h (by decide)

/-- A 16MiB non-NAND parameter record for the C6 witness. -/
def fixture_params16 : RomParams :=
  { rom_size := 16 * 1024 * 1024, sram_kind := SramKind.Eeprom64KB }

/-- Witness for claim C6 at a 16MiB non-NAND configuration. -/
theorem c6_chip_id_witness :
    16 * 1024 * 1024 < 2 ^ 32 ∧
    (gen_chip_id (16 * 1024 * 1024) false fixture_params16 % 2 ^ 8 = 0xC2 ∧
      (gen_chip_id (16 * 1024 * 1024) false fixture_params16 >>> 8) % 2 ^ 8 =
        (if 256 * 1024 * 1024 ≤ 16 * 1024 * 1024 then 0x100 - (16 * 1024 * 1024 : Nat) >>> 28
         else if 1024 * 1024 ≤ 16 * 1024 * 1024 ∧
             16 * 1024 * 1024 ≤ 128 * 1024 * 1024 then (16 * 1024 * 1024 : Nat) >>> 20 - 1
         else 0) ∧
      (gen_chip_id (16 * 1024 * 1024) false fixture_params16).testBit 27 =
        (false || fixture_params16.sram_kind.memory_kind == MemoryKind.Nand) ∧
      (gen_chip_id (16 * 1024 * 1024) false fixture_params16).testBit 30 =
        (fixture_params16.sram_kind.memory_kind == MemoryKind.Nand) ∧
      (gen_chip_id (16 * 1024 * 1024) false fixture_params16).testBit 31 =
        (!(fixture_params16.sram_kind.memory_kind == MemoryKind.Nand) &&
          decide (128 * 1024 * 1024 ≤ fixture_params16.rom_size)) ∧
      ((16 * 1024 * 1024 : Nat) = 16 * 1024 * 1024 →
        (gen_chip_id (16 * 1024 * 1024) false fixture_params16 >>> 8) % 2 ^ 8 = 15)) :=
  ⟨by norm_num, c6_chip_id (16 * 1024 * 1024) false fixture_params16 (by norm_num)⟩

/-- Claim C10: the chip ID synthesized by `load_data` computes its size field
(bits `[15:8]`) from the power-of-two-rounded buffer length, while bit 31
(the ≥128MiB flag, for non-NAND SRAM) is decided by the table-resolved
`params.rom_size` — two different size values when the table entry disagrees
with the buffer length. -/
theorem c10_chip_id_size_sources (table : Nat → Option RomParams) (bytes : List Nat)
    (R : NdsRom) (header : NdsHeader) (params0 : RomParams)
    (hread : NdsHeader.read
      (bytes ++ List.replicate (NdsRom.rom_buf_size bytes.length - bytes.length) 0) =
      some header)
    (hhit : table header.game_code_u32 = some params0)
    (hload : NdsRom.load table bytes = some R)
    (hsize : NdsRom.rom_buf_size bytes.length < 2 ^ 32)
    (hnand : (params0.sram_kind.memory_kind == MemoryKind.Nand) = false) :
    R.params = params0 ∧
    R.chip_id = gen_chip_id (NdsRom.rom_buf_size bytes.length) header.is_dsi params0 ∧
    (R.chip_id >>> 8) % 2 ^ 8 =
      (if 256 * 1024 * 1024 ≤ NdsRom.rom_buf_size bytes.length then
         0x100 - NdsRom.rom_buf_size bytes.length >>> 28
       else if 1024 * 1024 ≤ NdsRom.rom_buf_size bytes.length ∧
           NdsRom.rom_buf_size bytes.length ≤ 128 * 1024 * 1024 then
         NdsRom.rom_buf_size bytes.length >>> 20 - 1
       else 0) ∧
    R.chip_id.testBit 31 = decide (128 * 1024 * 1024 ≤ params0.rom_size) := by
  have hplen :
      (bytes ++ List.replicate (NdsRom.rom_buf_size bytes.length - bytes.length) 0).length =
      NdsRom.rom_buf_size bytes.length := by
    rw [List.length_append, List.length_replicate]
    have := NdsRom.rom_buf_size_ge bytes.length
    omega
  simp only [NdsRom.load, NdsRom.load_data, Option.bind_eq_some] at hload
  rw [hplen] at hload
  obtain ⟨header', hh, banner, hb, rom2, hinit, hR⟩ := hload
  rw [hread] at hh
  injection hh with hh
  subst hh
  simp only [hhit] at hR
  injection hR with hR
  subst hR
  obtain ⟨-, hbyte, -, -, hbit31, -⟩ :=
    gen_chip_id_spec (NdsRom.rom_buf_size bytes.length) header.is_dsi params0 hsize
  rw [hnand, Bool.not_false, Bool.true_and] at hbit31
  exact ⟨rfl, rfl, hbyte, hbit31⟩

/-- A table-resolved parameter record whose ROM size (128MiB) disagrees with
the 512-byte rounded buffer of the empty input. -/
def fixture_params_big : RomParams :=
  { rom_size := 128 * 1024 * 1024, sram_kind := SramKind.None }

/-- The image loaded from the empty input when the table resolves to
`fixture_params_big`. -/
def fixture_big_image : NdsRom :=
  { rom := List.replicate 512 0, header := fixture_empty_header, banner := false,
    params := fixture_params_big, chip_id := 0x800000C2 }

/-- Witness for claim C10 at the empty input with a 128MiB table entry: the
size field comes out 0 (from the 512-byte buffer) while bit 31 is set (from
the table's 128MiB). -/
theorem c10_chip_id_size_sources_witness :
    (NdsHeader.read (([] : List Nat) ++
        List.replicate (NdsRom.rom_buf_size (List.length ([] : List Nat)) -
          List.length ([] : List Nat)) 0) = some fixture_empty_header) ∧
    (NdsRom.load (fun _ => some fixture_params_big) ([] : List Nat) =
      some fixture_big_image) ∧
    (NdsRom.rom_buf_size (List.length ([] : List Nat)) < 2 ^ 32) ∧
    ((fixture_params_big.sram_kind.memory_kind == MemoryKind.Nand) = false) ∧
    (fixture_big_image.params = fixture_params_big ∧
      fixture_big_image.chip_id = gen_chip_id (NdsRom.rom_buf_size (List.length ([] : List Nat)))
        fixture_empty_header.is_dsi fixture_params_big ∧
      (fixture_big_image.chip_id >>> 8) % 2 ^ 8 =
        (if 256 * 1024 * 1024 ≤ NdsRom.rom_buf_size (List.length ([] : List Nat)) then
           0x100 - NdsRom.rom_buf_size (List.length ([] : List Nat)) >>> 28
         else if 1024 * 1024 ≤ NdsRom.rom_buf_size (List.length ([] : List Nat)) ∧
             NdsRom.rom_buf_size (List.length ([] : List Nat)) ≤ 128 * 1024 * 1024 then
           NdsRom.rom_buf_size (List.length ([] : List Nat)) >>> 20 - 1
         else 0) ∧
      fixture_big_image.chip_id.testBit 31 =
        decide (128 * 1024 * 1024 ≤ fixture_params_big.rom_size)) :=
  ⟨by decide, by decide, by decide, by decide,
    c10_chip_id_size_sources (fun _ => some fixture_params_big) [] fixture_big_image
      fixture_empty_header fixture_params_big (by decide) rfl (by decide) (by decide)
      (by decide)⟩

/-- Claim C9: `load` panics (modelled as `none`) on inputs whose decoded
header advertises a secure area while the rounded buffer stays under 0x8000
bytes — in particular every input of at most 512 bytes with such an ARM9
offset — and likewise when a nonzero banner offset plus the 9152-byte banner
size exceeds the buffer. -/
theorem c9_load_panics :
    (∀ (table : Nat → Option RomParams) (bytes : List Nat) (header : NdsHeader),
      bytes.length ≤ 512 →
      NdsHeader.read
        (bytes ++ List.replicate (NdsRom.rom_buf_size bytes.length - bytes.length) 0) =
        some header →
      header.has_secure_area = true →
      NdsRom.load table bytes = none) ∧
    (∀ (table : Nat → Option RomParams) (bytes : List Nat) (header : NdsHeader),
      NdsHeader.read
        (bytes ++ List.replicate (NdsRom.rom_buf_size bytes.length - bytes.length) 0) =
        some header →
      header.banner_offset ≠ 0 →
      (bytes ++ List.replicate (NdsRom.rom_buf_size bytes.length - bytes.length) 0).length <
        header.banner_offset + NdsBanner.SIZE →
      NdsRom.load table bytes = none) := by
  constructor
  · intro table bytes header hsmall hread hsa
    have h512 : NdsRom.rom_buf_size bytes.length = 512 :=
      NdsRom.rom_buf_size_of_le_512 hsmall
    have hplen :
        (bytes ++ List.replicate (NdsRom.rom_buf_size bytes.length - bytes.length) 0).length =
        512 := by
      rw [List.length_append, List.length_replicate, h512]
      omega
    simp only [NdsRom.load, NdsRom.load_data, hread, Option.some_bind]
    cases hbo : header.banner_offset with
    | zero =>
      simp only [Option.some_bind]
      rw [show NdsRom.init_secure_area
          (bytes ++ List.replicate (NdsRom.rom_buf_size bytes.length - bytes.length) 0) header
          header.game_code_u32 = none from ?_, Option.none_bind]
      simp only [NdsRom.init_secure_area]
      rw [if_pos hsa, if_neg (by rw [hplen]; omega)]
    | succ n =>
      simp only [NdsBanner.SIZE, hplen]
      rw [if_neg (by omega), Option.none_bind]
  · intro table bytes header hread hbo hbig
    simp only [NdsRom.load, NdsRom.load_data, hread, Option.some_bind]
    cases hbo2 : header.banner_offset with
    | zero => exact absurd hbo2 hbo
    | succ n =>
      rw [hbo2] at hbig
      simp only [NdsBanner.SIZE] at hbig ⊢
      rw [if_neg (by omega), Option.none_bind]

/-- A 36-byte input whose header field at 0x20 decodes ARM9 offset 0x4000. -/
def fixture_small : List Nat := List.replicate 0x20 0 ++ [0x00, 0x40, 0x00, 0x00]

/-- The header decoded from the padded `fixture_small` buffer. -/
def fixture_small_header : NdsHeader :=
  { game_code := [0, 0, 0, 0], unit_code := 0, arm9_rom_offset := 0x4000, banner_offset := 0,
    rom_size := 0 }

/-- A 108-byte input whose header field at 0x68 decodes banner offset 1. -/
def fixture_banner : List Nat := List.replicate 0x68 0 ++ [0x01, 0x00, 0x00, 0x00]

/-- The header decoded from the padded `fixture_banner` buffer. -/
def fixture_banner_header : NdsHeader :=
  { game_code := [0, 0, 0, 0], unit_code := 0, arm9_rom_offset := 0, banner_offset := 1,
    rom_size := 0 }

/-- Witness for claim C9: both panic modes hit on concrete small inputs. -/
theorem c9_load_panics_witness :
    (fixture_small.length ≤ 512 ∧
      NdsHeader.read (fixture_small ++
        List.replicate (NdsRom.rom_buf_size fixture_small.length - fixture_small.length) 0) =
        some fixture_small_header ∧
      fixture_small_header.has_secure_area = true ∧
      NdsRom.load (fun _ => none) fixture_small = none) ∧
    (NdsHeader.read (fixture_banner ++
        List.replicate (NdsRom.rom_buf_size fixture_banner.length - fixture_banner.length) 0) =
        some fixture_banner_header ∧
      fixture_banner_header.banner_offset ≠ 0 ∧
      (fixture_banner ++
        List.replicate (NdsRom.rom_buf_size fixture_banner.length -
          fixture_banner.length) 0).length <
        fixture_banner_header.banner_offset + NdsBanner.SIZE ∧
      NdsRom.load (fun _ => none) fixture_banner = none) :=
  ⟨⟨by decide, by decide, by decide,
      c9_load_panics.1 (fun _ => none) fixture_small fixture_small_header (by decide)
        (by decide) (by decide)⟩,
    ⟨by decide, by decide, by decide,
      c9_load_panics.2 (fun _ => none) fixture_banner fixture_banner_header (by decide)
        (by decide) (by decide)⟩⟩

/-- `Ascii::len`: index of the first NUL byte, or the full capacity. -/
def ascii_len (chars : List Nat) : Nat :=
  match chars.findIdx? (fun c => c == 0) with
  | some i => i
  | none => chars.length

/-- `validate_ascii`: the index of the first byte above `0x7F` (`Err`), or
`none` for a valid ASCII slice (`Ok`). -/
def validate_ascii (chars : List Nat) : Option Nat :=
  chars.findIdx? (fun c => decide (0x7F < c))

/-- The re-encode loop of `Ascii::to_string_lossy`, with an explicit fuel
bound on the iterations (each pass drops at least one byte, so the slice
length is always enough fuel). The output is the pushed code points. -/
def lossy_loop : Nat → List Nat → Nat → List Nat
  | 0, _, _ => []
  | fuel + 1, remaining, valid_up_to =>
    let valid := remaining.take valid_up_to
    let rest := remaining.drop (valid_up_to + 1)
    match validate_ascii rest with
    | none => valid ++ [0xFFFD]
    | some v => valid ++ [0xFFFD] ++ lossy_loop fuel rest v

/-- `Ascii::to_string_lossy` on the raw capacity-`N` byte array, returning
the produced code points. -/
def to_string_lossy (chars_full : List Nat) : List Nat :=
  let chars := chars_full.take (ascii_len chars_full)
  match validate_ascii chars with
  | none => chars
  | some v => lossy_loop chars.length chars v

/-- Claim C7: the claimed lossy-decode contract fails in `Ascii`'s code — on
`Ok` the loop `break`s without pushing the remaining valid tail (the `A`
after `0x80` is dropped), and each invalid byte yields its own U+FFFD rather
than one per maximal run; an all-valid string is still returned verbatim. -/
theorem c7_to_string_lossy_bug :
    to_string_lossy [0x80, 0x41, 0x00] = [0xFFFD] ∧
    to_string_lossy [0x80, 0x80, 0x41, 0x00] = [0xFFFD, 0xFFFD] ∧
    to_string_lossy [0x41, 0x80, 0x42, 0x00] = [0x41, 0xFFFD] ∧
    to_string_lossy [0x41, 0x42, 0x00] = [0x41, 0x42] := by decide

theorem encrypt_blocks_block (kb : List Nat) :
    ∀ n bs i, i < n → 8 * (i + 1) ≤ bs.length →
      ((Key1.encrypt_blocks kb n bs).drop (8 * i)).take 8 =
        Key1.encrypt_block kb ((bs.drop (8 * i)).take 8) := by
  intro n
  induction n with
  | zero => intro bs i hi; omega
  | succ n ih =>
    intro bs i hi hblen
    rw [Key1.encrypt_blocks, if_pos (by omega)]
    cases i with
    | zero =>
      simp only [Nat.mul_zero, List.drop_zero]
      rw [List.take_left' (Key1.encrypt_block_length kb (bs.take 8))]
    | succ j =>
      rw [show 8 * (j + 1) = (Key1.encrypt_block kb (bs.take 8)).length + 8 * j from by
          rw [Key1.encrypt_block_length]; ring,
        List.drop_append, ih (bs.drop 8) j (by omega)
          (by rw [List.length_drop]; omega),
        List.drop_drop,
        show 8 + 8 * j = (Key1.encrypt_block kb (bs.take 8)).length + 8 * j from by
          rw [Key1.encrypt_block_length]]

theorem encrypt_blocks_drop_all (kb : List Nat) :
    ∀ n bs, 8 * n ≤ bs.length →
      (Key1.encrypt_blocks kb n bs).drop (8 * n) = bs.drop (8 * n) := by
  intro n
  induction n with
  | zero => intro bs _; rfl
  | succ n ih =>
    intro bs hblen
    rw [Key1.encrypt_blocks, if_pos (by omega),
      show 8 * (n + 1) = (Key1.encrypt_block kb (bs.take 8)).length + 8 * n from by
        rw [Key1.encrypt_block_length]; ring,
      List.drop_append, ih (bs.drop 8) (by rw [List.length_drop]; omega),
      List.drop_drop,
      show 8 + 8 * n = (Key1.encrypt_block kb (bs.take 8)).length + 8 * n from by
        rw [Key1.encrypt_block_length]]

/-- Claim C3: when the repair runs, (1) the first 8 bytes become the literal
ASCII "encryObj" before encryption — the result depends only on the bytes
past offset 8 — (2) each of the 256 sequential 8-byte blocks of the first
0x800 bytes is encrypted independently with the level-3 state (block `i ≥ 1`
of the output is exactly the level-3 encryption of block `i` of the
overwritten input, and bytes past 0x800 are untouched), and (3) the first
block alone is encrypted a second time with the level-2 state. -/
theorem c3_encrypt_secure_area (sa : List Nat) (gc : Nat) (hlen : 0x800 ≤ sa.length) :
    (Key1.encrypt_secure_area sa gc).take 8 =
      Key1.encrypt_block (Key1.init2 gc) (Key1.encrypt_block (Key1.init3 gc) encryObjBytes) ∧
    (∀ i, 1 ≤ i → i < 0x100 →
      ((Key1.encrypt_secure_area sa gc).drop (8 * i)).take 8 =
        Key1.encrypt_block (Key1.init3 gc)
          (((encryObjBytes ++ sa.drop 8).drop (8 * i)).take 8)) ∧
    (Key1.encrypt_secure_area sa gc).drop 0x800 = sa.drop 0x800 ∧
    (Key1.encrypt_secure_area sa gc).length = sa.length ∧
    (∀ sa2, sa2.drop 8 = sa.drop 8 →
      Key1.encrypt_secure_area sa2 gc = Key1.encrypt_secure_area sa gc) := by
  have h8 : encryObjBytes.length = 8 := rfl
  have hP3len : (encryObjBytes ++ sa.drop 8).length = sa.length := by
    rw [List.length_append, h8, List.length_drop]
    omega
  have hE2len := Key1.encrypt_block_length (Key1.init2 gc)
    ((Key1.encrypt_blocks (Key1.init3 gc) 0x100 (encryObjBytes ++ sa.drop 8)).take 8)
  refine ⟨?_, ?_, ?_, Key1.encrypt_secure_area_length gc (by omega), ?_⟩
  · simp only [Key1.encrypt_secure_area]
    rw [List.take_left' hE2len]
    congr 1
    have hb := encrypt_blocks_block (Key1.init3 gc) 0x100 (encryObjBytes ++ sa.drop 8) 0
      (by norm_num) (by rw [hP3len]; omega)
    simp only [Nat.mul_zero, List.drop_zero] at hb
    rw [hb, List.take_left' h8]
  · intro i h1 h2
    simp only [Key1.encrypt_secure_area]
    rw [show 8 * i = (Key1.encrypt_block (Key1.init2 gc)
        ((Key1.encrypt_blocks (Key1.init3 gc) 0x100
          (encryObjBytes ++ sa.drop 8)).take 8)).length + (8 * i - 8) from by
        rw [hE2len]; omega,
      List.drop_append, List.drop_drop,
      show 8 + (8 * i - 8) = 8 * i from by omega,
      encrypt_blocks_block (Key1.init3 gc) 0x100 (encryObjBytes ++ sa.drop 8) i h2
        (by rw [hP3len]; omega)]
    rw [hE2len, show 8 + (8 * i - 8) = 8 * i from by omega]
  · simp only [Key1.encrypt_secure_area]
    rw [show (0x800 : Nat) = (Key1.encrypt_block (Key1.init2 gc)
        ((Key1.encrypt_blocks (Key1.init3 gc) 0x100
          (encryObjBytes ++ sa.drop 8)).take 8)).length + 0x7F8 from by rw [hE2len],
      List.drop_append, List.drop_drop,
      show 8 + 0x7F8 = 8 * 0x100 from by norm_num,
      encrypt_blocks_drop_all (Key1.init3 gc) 0x100 (encryObjBytes ++ sa.drop 8)
        (by rw [hP3len]; omega),
      show 8 * 0x100 = encryObjBytes.length + 0x7F8 from by rw [h8],
      List.drop_append, List.drop_drop,
      show 8 + 0x7F8 = 0x800 from by norm_num]
    rw [hE2len]
  · intro sa2 h
    simp only [Key1.encrypt_secure_area, h]

/-- An all-zero 0x800-byte secure area for the C3 witness. -/
def fixture_sa_zero : List Nat := List.replicate 0x800 0

/-- Witness for claim C3 at an all-zero 0x800-byte secure area. -/
theorem c3_encrypt_secure_area_witness :
    0x800 ≤ fixture_sa_zero.length ∧
    ((Key1.encrypt_secure_area fixture_sa_zero 0x4A4A4A4A).take 8 =
      Key1.encrypt_block (Key1.init2 0x4A4A4A4A)
        (Key1.encrypt_block (Key1.init3 0x4A4A4A4A) encryObjBytes) ∧
    (∀ i, 1 ≤ i → i < 0x100 →
      ((Key1.encrypt_secure_area fixture_sa_zero 0x4A4A4A4A).drop (8 * i)).take 8 =
        Key1.encrypt_block (Key1.init3 0x4A4A4A4A)
          (((encryObjBytes ++ fixture_sa_zero.drop 8).drop (8 * i)).take 8)) ∧
    (Key1.encrypt_secure_area fixture_sa_zero 0x4A4A4A4A).drop 0x800 =
      fixture_sa_zero.drop 0x800 ∧
    (Key1.encrypt_secure_area fixture_sa_zero 0x4A4A4A4A).length = fixture_sa_zero.length ∧
    (∀ sa2, sa2.drop 8 = fixture_sa_zero.drop 8 →
      Key1.encrypt_secure_area sa2 0x4A4A4A4A =
        Key1.encrypt_secure_area fixture_sa_zero 0x4A4A4A4A)) :=
  ⟨by simp [fixture_sa_zero],
    c3_encrypt_secure_area fixture_sa_zero 0x4A4A4A4A (by simp [fixture_sa_zero])⟩

theorem read_replicate_zero {N : Nat} (h : 512 ≤ N) :
    NdsHeader.read (List.replicate N 0) = some fixture_empty_header := by
  simp only [NdsHeader.read, NdsHeader.SIZE]
  rw [if_pos (by rw [List.length_replicate]; omega)]
  have hgc : ((List.replicate N (0 : Nat)).drop 0x0C).take 4 = [0, 0, 0, 0] := by
    rw [List.drop_replicate, List.take_replicate, show min 4 (N - 0x0C) = 4 from by omega]
    rfl
  have huc : (List.replicate N (0 : Nat)).getD 0x12 0 = 0 := list_getD_replicate_zero N 0x12
  have hread0 : ∀ k, k + 4 ≤ N → readU32LE ((List.replicate N (0 : Nat)).drop k) = 0 := by
    intro k hk
    rw [List.drop_replicate, show List.replicate (N - k) (0 : Nat) =
        List.replicate (N - k) 0 ++ [] from (List.append_nil _).symm]
    exact readU32LE_replicate_zero [] (by omega)
  rw [hgc, huc, hread0 0x20 (by omega), hread0 0x68 (by omega), hread0 0x80 (by omega)]
  rfl

/-- An input one byte past 2GiB: its buffer rounds to 4GiB, whose size the
fallback's `as u32` cast wraps to 0. -/
def fixture_huge : List Nat := List.replicate (2 ^ 31 + 1) 0

theorem fixture_huge_buf_size : NdsRom.rom_buf_size (2 ^ 31 + 1) = 2 ^ 32 :=
  @NdsRom.rom_buf_size_eq_pow (2 ^ 31 + 1) 32 (by norm_num) (by norm_num) (by norm_num)

theorem fixture_huge_pad :
    fixture_huge ++ List.replicate
      (NdsRom.rom_buf_size fixture_huge.length - fixture_huge.length) 0 =
    List.replicate (2 ^ 32) 0 := by
  rw [show fixture_huge.length = 2 ^ 31 + 1 from by rw [fixture_huge, List.length_replicate],
    fixture_huge_buf_size, fixture_huge, ← List.replicate_add]
  congr 1

/-- The fallback parameters of the 4GiB buffer: the wrapped ROM size is 0. -/
def fixture_huge_params : RomParams := { rom_size := 0, sram_kind := SramKind.None }

/-- The image loaded from `fixture_huge` with an empty lookup table. -/
def fixture_huge_image : NdsRom :=
  { rom := List.replicate (2 ^ 32) 0, header := fixture_empty_header, banner := false,
    params := fixture_huge_params,
    chip_id := gen_chip_id (2 ^ 32) false fixture_huge_params }

theorem fixture_huge_load :
    NdsRom.load (fun _ => none) fixture_huge = some fixture_huge_image := by
  have hbo : fixture_empty_header.banner_offset = 0 := rfl
  have hdsi : fixture_empty_header.is_dsi = false := by decide
  have hgc : fixture_empty_header.game_code_u32 = 0 := by decide
  have hfb : (if fixture_empty_header.is_homebrew then SramKind.None else SramKind.Eeprom64KB) =
      SramKind.None := by decide
  have hinit : NdsRom.init_secure_area (List.replicate (2 ^ 32) 0) fixture_empty_header 0 =
      some (List.replicate (2 ^ 32) 0) := by
    simp only [NdsRom.init_secure_area]
    rw [if_neg (by decide)]
  simp only [NdsRom.load]
  rw [fixture_huge_pad]
  simp only [NdsRom.load_data, read_replicate_zero (show 512 ≤ 2 ^ 32 from by norm_num),
    Option.some_bind, hbo, hgc, hdsi, hfb, List.length_replicate,
    show (2 : Nat) ^ 32 % 2 ^ 32 = 0 from by norm_num, hinit]
  rfl

/-- Counterexample to claim C8: the resolved fallback ROM size is not always
the rounded buffer size — for an input one byte past 2GiB the buffer rounds
to 4GiB and the `as u32` cast wraps the stored size to 0. -/
theorem c8_params_fallback_counterexample :
    ¬ (∀ (table : Nat → Option RomParams) (bytes : List Nat) (R : NdsRom)
        (header : NdsHeader),
        NdsHeader.read
          (bytes ++ List.replicate (NdsRom.rom_buf_size bytes.length - bytes.length) 0) =
          some header →
        table header.game_code_u32 = none →
        NdsRom.load table bytes = some R →
        R.params.rom_size = NdsRom.rom_buf_size bytes.length) := by
  intro hclm
  have hread : NdsHeader.read (fixture_huge ++
      List.replicate (NdsRom.rom_buf_size fixture_huge.length - fixture_huge.length) 0) =
      some fixture_empty_header := by
    rw [fixture_huge_pad]
    exact read_replicate_zero (by norm_num)
  have h := hclm (fun _ => none) fixture_huge fixture_huge_image fixture_empty_header hread rfl
    fixture_huge_load
  rw [show fixture_huge_image.params.rom_size = 0 from rfl,
    show fixture_huge.length = 2 ^ 31 + 1 from by rw [fixture_huge, List.length_replicate],
    fixture_huge_buf_size] at h
  exact absurd h (by norm_num)
